import Mathlib

/-!
Shallow embedding of the file-based event DAO of cstbox/ext-evtdb
(src/lib/python/pycstbox/evtdao/fsys/dao_fsys.py), together with the models of
the small parts of the Python runtime and standard library that the DAO code
relies on (string `strip`/`split`, `%02d`-style formatting, `strftime` and
`strptime` for the two fixed patterns the DAO uses, `datetime.utcfromtimestamp`
and the flat fragment of the stdlib JSON codec that event metadata uses).

Events are stored one per line in day-partitioned text files; a record is the
tab-separated sequence timestamp / var_type / var_name / str(value) /
json-encoded metadata.  The state of a DAO instance (read-only flag, flash
memory flag, current file and current day marker, last-flush clock, and the
on-disk partition store) is explicit, and every operation is a pure function
from state (plus the wall-clock instant the source reads inline) to state and
outcome, with raised exceptions, tolerant drops and physical flushes reified in
the result.
-/

namespace EvtDB

/-! ### Python string helpers: strip, split -/

/-- The whitespace characters removed by Python's str.strip(). -/
def isPySpace (c : Char) : Bool :=
  c = ' ' || c = '\t' || c = '\n' || c = '\r' || c = '\x0b' || c = '\x0c'

/-- Python str.strip(): drop leading and trailing whitespace. -/
def pyStrip (s : String) : String :=
  String.mk (((s.data.dropWhile isPySpace).reverse.dropWhile isPySpace).reverse)

/-- Python str.split(sep) for a one-character separator: every occurrence of
the separator ends a field, empty fields included. -/
def splitOnChar (sep : Char) : List Char → List (List Char)
  | [] => [[]]
  | c :: cs =>
    match splitOnChar sep cs with
    | [] => [[]]
    | f :: rest => if c = sep then [] :: f :: rest else (c :: f) :: rest

/-- Python str.split(sep) on strings. -/
def pySplit (sep : Char) (s : String) : List String :=
  (splitOnChar sep s.data).map String.mk

/-! ### Decimal numerals (str() of ints, %02d / %06d formatting) -/

def digitChar (n : Nat) : Char := Char.ofNat (48 + n)

def digitVal (c : Char) : Nat := c.toNat - 48

def isDigitCh (c : Char) : Bool := 48 ≤ c.toNat && c.toNat ≤ 57

/-- Decimal digits of n, most significant first; fuel-structured so that it
reduces definitionally. -/
def natReprAux : Nat → Nat → List Char
  | 0, _ => []
  | fuel + 1, n =>
    if n < 10 then [digitChar n] else natReprAux fuel (n / 10) ++ [digitChar (n % 10)]

/-- Decimal representation of a natural number (Python str of a non-negative int). -/
def natRepr (n : Nat) : List Char := natReprAux (n + 1) n

/-- Python str() of an int. -/
def intRepr (i : Int) : List Char :=
  if i < 0 then '-' :: natRepr i.natAbs else natRepr i.toNat

/-- "%02d" % n, for n < 100 (all the DAO's uses: year % 100, month, day, hour,
minute, second — each below 100 for any real datetime). -/
def pad2 (n : Nat) : List Char := [digitChar (n / 10 % 10), digitChar (n % 10)]

/-- "%06d" % n, for n < 1000000 (strftime %f: the microsecond field of a
datetime is always below 10^6). -/
def pad6 (n : Nat) : List Char :=
  [digitChar (n / 100000 % 10), digitChar (n / 10000 % 10), digitChar (n / 1000 % 10),
   digitChar (n / 100 % 10), digitChar (n / 10 % 10), digitChar (n % 10)]

/-- Consume a maximal run of decimal digits, most significant first, folding
them onto an accumulator; returns the value and the unconsumed suffix. -/
def readDigits (acc : Nat) : List Char → Nat × List Char
  | [] => (acc, [])
  | c :: cs => if isDigitCh c then readDigits (10 * acc + digitVal c) cs else (acc, c :: cs)

/-- Parse a non-empty run of decimal digits. -/
def parseNat (cs : List Char) : Option (Nat × List Char) :=
  match cs with
  | c :: _ => if isDigitCh c then some (readDigits 0 cs) else none
  | [] => none

/-! ### The JSON codec (model of the stdlib json module on the flat fragment
used for event metadata: an object whose values are null, booleans, integers
or strings).  json.dumps uses the default separators (", " and ": ") and
escapes the characters that would break the line/field framing; json.loads
inverts it on that canonical form. -/

inductive JVal where
  | jnull
  | jbool (b : Bool)
  | jint (i : Int)
  | jstr (s : String)
deriving DecidableEq, Repr

/-- A JSON object / Python dict, as a key-value list. -/
abbrev JObj := List (String × JVal)

def lookupKey (d : JObj) (k : String) : Option JVal :=
  ((d.find? (fun p => p.1 = k)).map (fun p => p.2))

/-- JSON string escaping as performed by json.dumps on the characters that
matter to the record framing (quote, backslash, newline, tab, carriage
return); other characters pass through unescaped. -/
def escChar (c : Char) : List Char :=
  if c = '"' then ['\\', '"']
  else if c = '\\' then ['\\', '\\']
  else if c = '\n' then ['\\', 'n']
  else if c = '\t' then ['\\', 't']
  else if c = '\r' then ['\\', 'r']
  else [c]

def escStr (s : String) : List Char := s.data.flatMap escChar

def dumpStr (s : String) : List Char := '"' :: (escStr s ++ ['"'])

def dumpVal : JVal → List Char
  | .jnull => ['n', 'u', 'l', 'l']
  | .jbool true => ['t', 'r', 'u', 'e']
  | .jbool false => ['f', 'a', 'l', 's', 'e']
  | .jint i => intRepr i
  | .jstr s => dumpStr s

def dumpObjItems : JObj → List Char
  | [] => []
  | [(k, v)] => dumpStr k ++ ':' :: ' ' :: dumpVal v
  | (k, v) :: rest => dumpStr k ++ ':' :: ' ' :: (dumpVal v ++ ',' :: ' ' :: dumpObjItems rest)

/-- json.dumps of a dict (default separators). -/
def jdumps (m : JObj) : String := String.mk ('\x7b' :: (dumpObjItems m ++ ['\x7d']))

def unescChar (c : Char) : Option Char :=
  if c = '"' then some '"'
  else if c = '\\' then some '\\'
  else if c = 'n' then some '\n'
  else if c = 't' then some '\t'
  else if c = 'r' then some '\r'
  else none

/-- Parse the body of a JSON string after its opening quote, up to and
including the closing quote. -/
def parseStrBody : List Char → Option (List Char × List Char)
  | [] => none
  | c :: cs =>
    if c = '"' then some ([], cs)
    else if c = '\\' then
      match cs with
      | [] => none
      | e :: cs' => do
        let u ← unescChar e
        let (l, r) ← parseStrBody cs'
        some (u :: l, r)
    else do
      let (l, r) ← parseStrBody cs
      some (c :: l, r)

def parseJStr (cs : List Char) : Option (String × List Char) :=
  match cs with
  | '"' :: cs' => (parseStrBody cs').map (fun p => (String.mk p.1, p.2))
  | _ => none

def parseLit (cs : List Char) : Option (JVal × List Char) :=
  if cs.take 4 = ['n', 'u', 'l', 'l'] then some (.jnull, cs.drop 4)
  else if cs.take 4 = ['t', 'r', 'u', 'e'] then some (.jbool true, cs.drop 4)
  else if cs.take 5 = ['f', 'a', 'l', 's', 'e'] then some (.jbool false, cs.drop 5)
  else none

def parseJVal (cs : List Char) : Option (JVal × List Char) :=
  match cs with
  | '"' :: _ => (parseJStr cs).map (fun p => (JVal.jstr p.1, p.2))
  | '-' :: cs' => (parseNat cs').map (fun p => (JVal.jint (-(p.1 : Int)), p.2))
  | _ =>
    match parseLit cs with
    | some x => some x
    | none => (parseNat cs).map (fun p => (JVal.jint (p.1 : Int), p.2))

/-- Parse a non-empty comma-separated item list of a JSON object, up to and
including the closing brace. -/
def parseItems : Nat → List Char → Option (JObj × List Char)
  | 0, _ => none
  | fuel + 1, cs => do
    let (k, cs1) ← parseJStr cs
    match cs1 with
    | ':' :: ' ' :: cs2 => do
      let (v, cs3) ← parseJVal cs2
      match cs3 with
      | ',' :: ' ' :: cs4 => do
        let (items, r) ← parseItems fuel cs4
        some ((k, v) :: items, r)
      | '\x7d' :: r => some ([(k, v)], r)
      | _ => none
    | _ => none

/-- json.loads on the canonical object form produced by jdumps; any other
input fails (a failure models the ValueError raised by json.loads). -/
def jloads (s : String) : Option JObj :=
  match s.data with
  | '\x7b' :: '\x7d' :: rest => if rest = [] then some [] else none
  | '\x7b' :: cs =>
    match parseItems (cs.length + 1) cs with
    | some (items, []) => some items
    | _ => none
  | _ => none

/-! ### Timestamps

A datetime value with microsecond precision (the DAO stores and compares UTC
datetimes).  Comparison of Python datetimes is lexicographic on the fields;
DT.toNat realises that order for in-range field values. -/

structure DT where
  year : Nat
  month : Nat
  day : Nat
  hour : Nat
  minute : Nat
  second : Nat
  micro : Nat
deriving DecidableEq, Repr

/-- Field ranges guaranteed by Python datetime objects. -/
def isLeap (y : Nat) : Bool := (y % 4 = 0 && y % 100 ≠ 0) || y % 400 = 0

def daysInMonth (y m : Nat) : Nat :=
  if m = 2 then (if isLeap y then 29 else 28)
  else if m = 4 ∨ m = 6 ∨ m = 9 ∨ m = 11 then 30
  else 31

def DTValid (t : DT) : Prop :=
  1 ≤ t.month ∧ t.month ≤ 12 ∧ 1 ≤ t.day ∧ t.day ≤ daysInMonth t.year t.month ∧
  t.hour ≤ 23 ∧ t.minute ≤ 59 ∧ t.second ≤ 59 ∧ t.micro < 1000000

instance (t : DT) : Decidable (DTValid t) := by unfold DTValid; infer_instance

/-- Linearisation of a datetime; for valid field values it realises the
field-lexicographic comparison of Python datetime objects. -/
def DT.toNat (t : DT) : Nat :=
  (((((t.year * 13 + t.month) * 32 + t.day) * 24 + t.hour) * 60 + t.minute) * 60 + t.second)
    * 1000000 + t.micro

/-- A Python date (datetime.date); comparison is field-lexicographic. -/
structure PDate where
  year : Nat
  month : Nat
  day : Nat
deriving DecidableEq, Repr

def PDate.key (d : PDate) : Nat := (d.year * 13 + d.month) * 32 + d.day

def DT.toDate (t : DT) : PDate := ⟨t.year, t.month, t.day⟩

/-- strftime('%y%m%d-%H%M%S.%f'), the record timestamp field (_TS_FMT). -/
def fmtTS (t : DT) : List Char :=
  pad2 (t.year % 100) ++ pad2 t.month ++ pad2 t.day ++ '-' ::
    (pad2 t.hour ++ pad2 t.minute ++ pad2 t.second ++ '.' :: pad6 t.micro)

/-- The century rule of strptime's %y directive: 00-68 maps to 2000-2068,
69-99 maps to 1969-1999. -/
def centuryOf (yy : Nat) : Nat := if yy ≤ 68 then 2000 + yy else 1900 + yy

/-- datetime.strptime(s.ljust(20, '0'), '%y%m%d-%H%M%S.%f') as used by the
record decoder: the timestamp field is right-padded with '0' to 20 characters
and parsed in its fixed-width form, every sub-field range-checked the way the
datetime constructor checks it. -/
def parseTS (s : String) : Option DT :=
  if s.data.length > 20 then none
  else
    match s.data ++ List.replicate (20 - s.data.length) '0' with
    | [y1, y2, a1, a2, d1, d2, h, h1, h2, i1, i2, s1, s2, p, u1, u2, u3, u4, u5, u6] =>
      if h = '-' && p = '.' &&
         isDigitCh y1 && isDigitCh y2 && isDigitCh a1 && isDigitCh a2 &&
         isDigitCh d1 && isDigitCh d2 && isDigitCh h1 && isDigitCh h2 &&
         isDigitCh i1 && isDigitCh i2 && isDigitCh s1 && isDigitCh s2 &&
         isDigitCh u1 && isDigitCh u2 && isDigitCh u3 && isDigitCh u4 &&
         isDigitCh u5 && isDigitCh u6 then
        let year := centuryOf (10 * digitVal y1 + digitVal y2)
        let month := 10 * digitVal a1 + digitVal a2
        let day := 10 * digitVal d1 + digitVal d2
        let hour := 10 * digitVal h1 + digitVal h2
        let minute := 10 * digitVal i1 + digitVal i2
        let second := 10 * digitVal s1 + digitVal s2
        let micro := 100000 * digitVal u1 + 10000 * digitVal u2 + 1000 * digitVal u3 +
          100 * digitVal u4 + 10 * digitVal u5 + digitVal u6
        if 1 ≤ month ∧ month ≤ 12 ∧ 1 ≤ day ∧ day ≤ daysInMonth year month ∧
           hour ≤ 23 ∧ minute ≤ 59 ∧ second ≤ 59 then
          some ⟨year, month, day, hour, minute, second, micro⟩
        else none
      else none
    | _ => none

/-- Days since 1970-01-01 to a (year, month, day) civil date (proleptic
Gregorian, the computation datetime.utcfromtimestamp performs). -/
def civilFromDays (z0 : Nat) : Nat × Nat × Nat :=
  let z := z0 + 719468
  let era := z / 146097
  let doe := z % 146097
  let yoe := (doe - doe / 1460 + doe / 36524 - doe / 146096) / 365
  let y := yoe + era * 400
  let doy := doe - (365 * yoe + yoe / 4 - yoe / 100)
  let mp := (5 * doy + 2) / 153
  let d := doy - (153 * mp + 2) / 5 + 1
  let m := if mp < 10 then mp + 3 else mp - 9
  (if m ≤ 2 then y + 1 else y, m, d)

/-- datetime.utcfromtimestamp(msecs / 1000.0): the UTC datetime of an epoch
millisecond count (the float division is exact to the microsecond for any
realistic count, so the conversion is modelled exactly). -/
def utcfromtimestampMs (ms : Nat) : DT :=
  let secs := ms / 1000
  let c := civilFromDays (secs / 86400)
  { year := c.1, month := c.2.1, day := c.2.2,
    hour := secs % 86400 / 3600, minute := secs % 3600 / 60, second := secs % 60,
    micro := ms % 1000 * 1000 }

/-! ### The record codec and the per-day scan -/

/-- Python str() on the JSON-representable scalars metadata values take. -/
def pyStr : JVal → String
  | .jnull => "None"
  | .jbool true => "True"
  | .jbool false => "False"
  | .jint i => String.mk (intRepr i)
  | .jstr s => s

/-- A decoded event, as built by events.make_timed_event(rec_ts, rec_var_type,
rec_var_name, value=rec_value, **data): the four first-class fields plus the
metadata mapping (the value is kept as the parsed string). -/
structure PyEvent where
  timestamp : DT
  var_type : String
  var_name : String
  value : String
  data : JObj
deriving DecidableEq, Repr

/-- The encoded record line (without the trailing newline added on write):
timestamp, var_type, var_name, str(value) and the JSON metadata, joined by
tabs (insert_event, dao_fsys.py lines 157-162). -/
def encodeLine (ts : DT) (var_type var_name : String) (value : JVal) (data : JObj) : String :=
  String.mk (fmtTS ts) ++ "\t" ++ var_type ++ "\t" ++ var_name ++ "\t" ++
    pyStr value ++ "\t" ++ jdumps data

/-- The truthy-filter test of get_events_for_day / get_events: a filter that
is None or empty is ignored, otherwise a non-matching record is skipped. -/
def filterFail (f : Option String) (v : String) : Bool :=
  match f with
  | none => false
  | some t => if t = "" then false else v ≠ t

/-- Outcome of processing one line of a partition file. -/
inductive StepRes where
  /-- The line does not decode (wrong field count, bad timestamp, bad JSON):
  logged as corrupted and skipped. -/
  | corrupt
  /-- The record does not match the var_type / var_name filter: skipped. -/
  | filtered
  /-- A decoded event, yielded. -/
  | ok (e : PyEvent)
  /-- The JSON metadata itself contains a 'value' key, so the reconstruction
  call passes the keyword value twice (value=rec_value together with **data):
  Python raises an uncaught TypeError at the call site, aborting the scan. -/
  | collide
deriving DecidableEq, Repr

/-- One iteration of the get_events_for_day loop (dao_fsys.py lines 214-240):
strip the line, split on tabs into exactly five fields, parse the (padded)
timestamp, apply the var_type / var_name filters, parse the JSON metadata and
reconstruct the event. -/
def decodeLineStep (vtf vnf : Option String) (record : String) : StepRes :=
  match pySplit '\t' (pyStrip record) with
  | [rec_ts, rec_var_type, rec_var_name, rec_value, rec_data] =>
    match parseTS rec_ts with
    | none => .corrupt
    | some ts =>
      if filterFail vtf rec_var_type then .filtered
      else if filterFail vnf rec_var_name then .filtered
      else
        match jloads rec_data with
        | none => .corrupt
        | some data =>
          if data.any (fun p => p.1 = "value") then .collide
          else .ok ⟨ts, rec_var_type, rec_var_name, rec_value, data⟩
  | _ => .corrupt

/-- What a full scan of one partition file produces: the events yielded in
file order, the record numbers logged as corrupted, and whether the scan was
aborted by an uncaught exception (leaving later lines unread). -/
structure ScanOut where
  events : List PyEvent
  logged : List Nat
  aborted : Bool
deriving DecidableEq, Repr

/-- The record loop of get_events_for_day, starting at record number n. -/
def scanLines (vtf vnf : Option String) (n : Nat) : List String → ScanOut
  | [] => ⟨[], [], false⟩
  | line :: rest =>
    match decodeLineStep vtf vnf line with
    | .collide => ⟨[], [], true⟩
    | .ok e =>
      let out := scanLines vtf vnf (n + 1) rest
      ⟨e :: out.events, out.logged, out.aborted⟩
    | .corrupt =>
      let out := scanLines vtf vnf (n + 1) rest
      ⟨out.events, n :: out.logged, out.aborted⟩
    | .filtered => scanLines vtf vnf (n + 1) rest

/-- Iterating a text file line by line (followed by the strip the loop body
applies): the file content split at newlines, a final empty piece (from a
trailing newline) not yielding a line. -/
def fileLines (content : String) : List String :=
  let ls := pySplit '\n' content
  if ls.getLast? = some "" then ls.dropLast else ls

/-! ### The partition store and the DAO state -/

/-- A partition file name's date components: (year % 100, month, day), the
"%02d%02d%02d" fields of _get_path_for_day. -/
abbrev DayKey := Nat × Nat × Nat

/-- The numeric rendering of a partition file name; for the two-digit field
values every real key has, the lexicographic filename order used by
sorted(os.listdir(...)) coincides with the order of this number. -/
def sortKey (k : DayKey) : Nat := (k.1 * 100 + k.2.1) * 100 + k.2.2

/-- A partition filename is well formed: two-digit fields and a date that
strptime('%y%m%d') accepts. -/
def ValidKey (k : DayKey) : Prop :=
  k.1 ≤ 99 ∧ 1 ≤ k.2.1 ∧ k.2.1 ≤ 12 ∧ 1 ≤ k.2.2 ∧ k.2.2 ≤ daysInMonth (centuryOf k.1) k.2.1

instance (k : DayKey) : Decidable (ValidKey k) := by unfold ValidKey; infer_instance

/-- datetime.strptime(name[:6], '%y%m%d').date(). -/
def dateOfKey (k : DayKey) : PDate := ⟨centuryOf k.1, k.2.1, k.2.2⟩

/-- The storage root: the partition files, as filename-key / content pairs in
directory (listdir) order. -/
abbrev Store := List (DayKey × String)

def storeRead (s : Store) (k : DayKey) : Option String :=
  (s.find? (fun p => p.1 = k)).map (fun p => p.2)

/-- open(path, 'a'): create the file empty if it does not exist yet. -/
def storeEnsure (s : Store) (k : DayKey) : Store :=
  if (s.find? (fun p => p.1 = k)).isSome then s else s ++ [(k, "")]

/-- Append text to an existing file opened in append mode. -/
def storeAppend (s : Store) (k : DayKey) (text : String) : Store :=
  s.map (fun p => if p.1 = k then (p.1, p.2 ++ text) else p)

/-- Exceptions of the Python code paths the DAO exercises. -/
inductive PyErr where
  | ioError (msg : String)
  | valueError (msg : String)
  | assertionError
  | typeError
  | attributeError
deriving DecidableEq, Repr

/-- The mutable state of an EventsDAO instance together with its storage
root's contents. -/
structure DaoState where
  readonly : Bool
  flash_memory : Bool
  current_file : Option DayKey
  current_day : Option Nat
  last_flush : Nat
  store : Store
deriving DecidableEq, Repr

/-- MAX_FLUSH_AGE = 3600 * 2: flush files every 2 hours at least. -/
def MAX_FLUSH_AGE : Nat := 3600 * 2

/-- The data argument of insert_event: a pre-parsed dict or a JSON string. -/
inductive PyData where
  | dict (d : JObj)
  | str (s : String)
deriving DecidableEq, Repr

/-- Python truthiness of the data argument (an empty dict or empty string is
falsy and trips the assert). -/
def PyData.truthy : PyData → Bool
  | .dict d => !d.isEmpty
  | .str s => !(s = "")

inductive InsertOutcome where
  /-- An exception propagated to the caller. -/
  | raised (e : PyErr)
  /-- Tolerant drop: the method returned without writing anything. -/
  | dropped
  /-- The record was appended; the flag records whether a physical flush
  followed the write. -/
  | written (flushed : Bool)
deriving DecidableEq, Repr

structure InsertResult where
  outcome : InsertOutcome
  /-- The caller's data argument after the call (insert_event deletes the
  'value' key in place when data was passed as a dict). -/
  dataAfter : PyData
  state : DaoState
deriving DecidableEq, Repr

/-- EventsDAO.insert_event (dao_fsys.py lines 108-171), with the wall clock
instant time.time() reads passed in as now (in seconds). -/
def insert_event (st : DaoState) (now : Nat) (msecs : Nat)
    (var_type var_name : String) (data : PyData) : InsertResult :=
  if msecs = 0 ∨ var_type = "" ∨ var_name = "" ∨ data.truthy = false then
    ⟨.raised .assertionError, data, st⟩
  else if st.readonly then
    ⟨.raised (.ioError "database opened in readonly"), data, st⟩
  else
    let timestamp := utcfromtimestampMs msecs
    match (match data with
           | .dict d => some d
           | .str s => jloads s) with
    | none => ⟨.dropped, data, st⟩
    | some data_dict =>
      match lookupKey data_dict "value" with
      | none => ⟨.dropped, data, st⟩
      | some value =>
        let data_dict' := data_dict.filter (fun p => !(p.1 = "value"))
        let dataAfter : PyData :=
          match data with
          | .dict _ => .dict data_dict'
          | .str s => .str s
        -- check if we have to open a new storage file: the comparison is on
        -- timestamp.day, the day-of-month alone
        let needSwitch := st.current_day ≠ some timestamp.day
        let key : DayKey := (timestamp.year % 100, timestamp.month, timestamp.day)
        let cf := if needSwitch then some key else st.current_file
        let cd := if needSwitch then some timestamp.day else st.current_day
        let store1 := if needSwitch then storeEnsure st.store key else st.store
        match cf with
        | none =>
          -- unreachable from any state the constructor or a previous insert
          -- produces (current_day set forces current_file set)
          ⟨.raised .attributeError, dataAfter,
            { st with current_file := cf, current_day := cd, store := store1 }⟩
        | some k =>
          let line := encodeLine timestamp var_type var_name value data_dict' ++ "\n"
          let store2 := storeAppend store1 k line
          let flushed := !st.flash_memory || decide (MAX_FLUSH_AGE ≤ now - st.last_flush)
          ⟨.written flushed, dataAfter,
            { readonly := st.readonly, flash_memory := st.flash_memory,
              current_file := cf, current_day := cd,
              last_flush := if flushed then now else st.last_flush,
              store := store2 }⟩

/-- EventsDAO.flush (dao_fsys.py lines 173-180): a physical flush happens
exactly when a file is currently open; the state — in particular _last_flush —
is not touched. -/
def dao_flush (st : DaoState) : Bool × DaoState :=
  (st.current_file.isSome, st)

/-! ### The query operations -/

/-- The month argument of get_available_days, as the Python call site can
supply it: absent, a tuple of ints, or some other object (of which only the
truthiness matters before the type check fires). -/
inductive MonthArg where
  | noarg
  | tup (xs : List Nat)
  | nonTuple (truthy : Bool)
deriving DecidableEq, Repr

def MonthArg.truthy : MonthArg → Bool
  | .noarg => false
  | .tup xs => !xs.isEmpty
  | .nonTuple t => t

def MonthArg.isTuple : MonthArg → Bool
  | .tup _ => true
  | _ => false

/-- The partition keys in sorted(filename) order; for two-digit field values
the lexicographic filename order coincides with the sortKey order. -/
def sortedKeys (store : Store) : List DayKey :=
  List.insertionSort (fun a b => sortKey a ≤ sortKey b) (store.map (fun p => p.1))

/-- EventsDAO.get_available_days (dao_fsys.py lines 182-195).  The generator
is modelled as the list of dates it yields, an exception it raises (lazily, on
first consumption) as an error value.  The non-tuple type check runs before
the loop, but the tuple unpacking yy, mm = month sits inside the per-filename
loop: with an empty listing the loop body never runs, so a wrong-arity tuple
raises only when at least one partition file exists.  The month filter
compares the filename's first digit pairs before any date parsing; a
surviving filename whose date strptime rejects raises (modelled as an error
for the whole listing). -/
def get_available_days (store : Store) (month : MonthArg) : Except PyErr (List PDate) :=
  if month.truthy && !month.isTuple then
    .error (.valueError "month must be a tuple")
  else if month.truthy then
    match month with
    | .tup [yy0, mm0] =>
      let yy := if yy0 > 2000 then yy0 - 2000 else yy0
      let ks := (sortedKeys store).filter (fun k => k.1 = yy && k.2.1 = mm0)
      if ks.all (fun k => decide (ValidKey k)) then .ok (ks.map dateOfKey)
      else .error (.valueError "time data does not match format")
    | _ =>
      if (sortedKeys store).isEmpty then .ok []
      else .error (.valueError "unpack")
  else
    let ks := sortedKeys store
    if ks.all (fun k => decide (ValidKey k)) then .ok (ks.map dateOfKey)
    else .error (.valueError "time data does not match format")

/-- EventsDAO.get_events_for_day (dao_fsys.py lines 197-243) for a
year/month/day triple: scan the partition file of that day, a missing file
(IOError on open, caught and logged) giving the empty sequence. -/
def get_events_for_day (store : Store) (y m d : Nat) (vtf vnf : Option String) : ScanOut :=
  match storeRead store (y % 100, m, d) with
  | none => ⟨[], [], false⟩
  | some content => scanLines vtf vnf 1 (fileLines content)

/-- The day-range selection of get_events: if either bound is present, keep
the available days lying within [from_day, to_day]. -/
def scannedDays (avail : List PDate) (from_day to_day : Option PDate) : List PDate :=
  if from_day.isSome || to_day.isSome then
    avail.filter (fun day =>
      (match from_day with | none => true | some f => f.key ≤ day.key) &&
      (match to_day with | none => true | some t => day.key ≤ t.key))
  else avail

/-- The continue-conditions of the get_events loop body for one event of one
scanned day: boundary trimming against the first and last scanned day, then
the var_type / var_name filters. -/
def geKeep (from_time to_time : Option DT) (vtf vnf : Option String)
    (first last : Option PDate) (day : PDate) (e : PyEvent) : Bool :=
  !(match from_time with
    | none => false
    | some ft => first = some day && decide (e.timestamp.toNat < ft.toNat)) &&
  !(match to_time with
    | none => false
    | some tt => last = some day && decide (e.timestamp.toNat > tt.toNat)) &&
  !(filterFail vtf e.var_type) && !(filterFail vnf e.var_name)

/-- The outer loop of get_events: each scanned day is delegated to
get_events_for_day (without type/name filters), its events filtered by geKeep;
an aborted day scan aborts the whole query after the events already yielded. -/
def geDays (store : Store) (from_time to_time : Option DT) (vtf vnf : Option String)
    (first last : Option PDate) : List PDate → List PyEvent × Bool
  | [] => ([], false)
  | day :: rest =>
    let out := get_events_for_day store day.year day.month day.day none none
    let kept := out.events.filter (geKeep from_time to_time vtf vnf first last day)
    if out.aborted then (kept, true)
    else
      let more := geDays store from_time to_time vtf vnf first last rest
      (kept ++ more.1, more.2)

/-- EventsDAO.get_events (dao_fsys.py lines 245-277): multi-day filtered
query.  The result is the list of yielded events plus an abort flag (true when
an uncaught exception ended the lazy sequence early); a failure of the day
listing itself is an error. -/
def get_events (store : Store) (from_time to_time : Option DT)
    (vtf vnf : Option String) : Except PyErr (List PyEvent × Bool) :=
  match get_available_days store .noarg with
  | .error e => .error e
  | .ok avail =>
    let from_day := from_time.map DT.toDate
    let to_day := to_time.map DT.toDate
    let scanned := scannedDays avail from_day to_day
    .ok (geDays store from_time to_time vtf vnf scanned.head? scanned.getLast? scanned)

/-! ### The constructor and its filesystem interactions -/

/-- The directory entries the constructor touches: path plus whether the entry
is a directory. -/
abbrev PathFS := List (String × Bool)

def fsExists (fs : PathFS) (p : String) : Bool := (fs.find? (fun e => e.1 = p)).isSome

def fsIsDir (fs : PathFS) (p : String) : Bool :=
  ((fs.find? (fun e => e.1 = p)).map (fun e => e.2)).getD false

def fsMkdir (fs : PathFS) (p : String) : PathFS := fs ++ [(p, true)]

/-- The DAO configuration mapping (keys evts_db_home_dir and flash_memory). -/
structure Cfg where
  evts_db_home_dir : String
  flash_memory : Bool
deriving DecidableEq, Repr

/-- What EventsDAO.__init__ establishes. -/
structure InitDao where
  /-- self._dbhome, the storage root <configured home>/<channel>. -/
  dbhome : String
  readonly : Bool
  flash_memory : Bool
deriving DecidableEq, Repr

/-- EventsDAO.__init__ (dao_fsys.py lines 52-103): the existence / directory
checks and mkdir calls on the configured home, then the unconditional creation
of the channel subdirectory, then the field initialisation (no current file,
no current day, last flush clock at 0). -/
def daoInit (fs : PathFS) (events_channel : String) (config : Option Cfg)
    (readonly : Bool) : Except PyErr (PathFS × InitDao) :=
  match config with
  | none => .error (.valueError "missing mandatory parameter : config")
  | some cfg =>
    let dbhome := cfg.evts_db_home_dir
    match (if !fsExists fs dbhome then
             if readonly then Except.error (PyErr.ioError ("path not found : " ++ dbhome))
             else Except.ok (fsMkdir fs dbhome)
           else if !fsIsDir fs dbhome then
             Except.error (PyErr.ioError ("path is not a directory : " ++ dbhome))
           else Except.ok fs) with
    | .error e => .error e
    | .ok fs1 =>
      let root := dbhome ++ "/" ++ events_channel
      let fs2 := if !fsExists fs1 root then fsMkdir fs1 root else fs1
      .ok (fs2, ⟨root, readonly, cfg.flash_memory⟩)

/-- The DAO state __init__ leaves behind for a given store content. -/
def initState (readonly flash : Bool) (store : Store) : DaoState :=
  { readonly := readonly, flash_memory := flash, current_file := none,
    current_day := none, last_flush := 0, store := store }

/-! ### Helper notions used by the statements -/

def headNotDigit : List Char → Bool
  | [] => true
  | c :: _ => !isDigitCh c

/-- The timestamp a stored record decodes back to: the century is re-derived
from the two stored year digits by strptime's %y rule. -/
def remapYear (t : DT) : DT :=
  { t with year := centuryOf (t.year % 100) }

/-- A field string that survives the line/tab framing of the record format. -/
def noTabNl (s : String) : Prop := '\t' ∉ s.data ∧ '\n' ∉ s.data

instance (s : String) : Decidable (noTabNl s) := by unfold noTabNl; infer_instance

/-- The event a line contributes to an unfiltered scan, if any. -/
def stepEvent : StepRes → Option PyEvent
  | .ok e => some e
  | _ => none

/-- The events an unfiltered single-day scan of a date's partition yields. -/
def dayEvents (store : Store) (d : PDate) : List PyEvent :=
  (get_events_for_day store d.year d.month d.day none none).events

/-- The lines the reader iterates over for a given day (none for a missing
partition file). -/
def linesOfDay (store : Store) (y m d : Nat) : List String :=
  match storeRead store (y % 100, m, d) with
  | none => []
  | some content => fileLines content

instance : IsTotal DayKey (fun a b => sortKey a ≤ sortKey b) :=
  ⟨fun a b => Nat.le_total _ _⟩

instance : IsTrans DayKey (fun a b => sortKey a ≤ sortKey b) :=
  ⟨fun _ _ _ => Nat.le_trans⟩

/-- A line of the partition file of day k is consistent with the data model:
it is either corrupted, or decodes to an event of that file's own day with
in-range fields and without a 'value' collision in its metadata. -/
def lineOK (k : DayKey) (l : String) : Bool :=
  match decodeLineStep none none l with
  | .corrupt => true
  | .ok e => decide (e.timestamp.toDate = dateOfKey k ∧ DTValid e.timestamp)
  | _ => false

/-- A store whose partition files are consistent with the data model: every
key is a well-formed filename date, keys are distinct, and every line of every
file is consistent with its file's day. -/
def WFStore (store : Store) : Prop :=
  (store.map (fun p => p.1)).Nodup ∧
  (∀ k ∈ store.map (fun p => p.1), ValidKey k ∧ k.1 ≤ 68) ∧
  (∀ p ∈ store, ∀ l ∈ fileLines p.2, lineOK p.1 l = true)

instance (store : Store) : Decidable (WFStore store) := by unfold WFStore; infer_instance

end EvtDB

namespace EvtDB

/-! ## Proofs

### Decimal numerals -/

theorem isDigitCh_digitChar (n : Nat) (h : n < 10) : isDigitCh (digitChar n) = true := by
  interval_cases n <;> decide

theorem digitVal_digitChar (n : Nat) (h : n < 10) : digitVal (digitChar n) = n := by
  interval_cases n <;> decide

theorem readDigits_nonDigit (acc : Nat) (cs : List Char) (h : headNotDigit cs = true) :
    readDigits acc cs = (acc, cs) := by
  cases cs with
  | nil => rfl
  | cons c cs' =>
    simp only [headNotDigit, Bool.not_eq_true'] at h
    simp [readDigits, h]

theorem readDigits_natReprAux (fuel : Nat) :
    ∀ n acc cs, n < 10 ^ fuel →
      readDigits acc (natReprAux fuel n ++ cs) =
        readDigits (acc * 10 ^ (natReprAux fuel n).length + n) cs := by
  induction fuel with
  | zero =>
    intro n acc cs hn
    interval_cases n
    simp [natReprAux]
  | succ fuel ih =>
    intro n acc cs hn
    by_cases h10 : n < 10
    · have h1 : 10 * acc + n = acc * 10 ^ ([digitChar n].length) + n := by
        simp [Nat.mul_comm]
      simp only [natReprAux, if_pos h10, List.singleton_append, readDigits,
        isDigitCh_digitChar n h10, if_pos, digitVal_digitChar n h10, h1]
    · have hdiv : n / 10 < 10 ^ fuel := by
        apply Nat.div_lt_of_lt_mul
        calc n < 10 ^ (fuel + 1) := hn
        _ = 10 * 10 ^ fuel := by ring
      have hmod : n % 10 < 10 := Nat.mod_lt _ (by norm_num)
      simp only [natReprAux, if_neg h10, List.append_assoc, List.singleton_append]
      rw [ih (n / 10) acc (digitChar (n % 10) :: cs) hdiv]
      simp only [readDigits, isDigitCh_digitChar _ hmod, if_pos, digitVal_digitChar _ hmod]
      have : 10 * (acc * 10 ^ (natReprAux fuel (n / 10)).length + n / 10) + n % 10 =
          acc * 10 ^ ((natReprAux fuel (n / 10)).length + 1) + n := by
        have hsplit : 10 * (n / 10) + n % 10 = n := by omega
        rw [pow_succ]
        ring_nf
        omega
      rw [this]
      congr 1
      simp

theorem natReprAux_all_digits (fuel : Nat) :
    ∀ n c, c ∈ natReprAux fuel n → isDigitCh c = true := by
  induction fuel with
  | zero => intro n c hc; simp [natReprAux] at hc
  | succ fuel ih =>
    intro n c hc
    by_cases h10 : n < 10
    · simp only [natReprAux, if_pos h10, List.mem_singleton] at hc
      exact hc ▸ isDigitCh_digitChar n h10
    · simp only [natReprAux, if_neg h10, List.mem_append, List.mem_singleton] at hc
      rcases hc with hc | hc
      · exact ih _ _ hc
      · exact hc ▸ isDigitCh_digitChar _ (Nat.mod_lt _ (by norm_num))

theorem natRepr_ne_nil (n : Nat) : natRepr n ≠ [] := by
  unfold natRepr natReprAux
  by_cases h10 : n < 10 <;> simp [h10]

theorem parseNat_natRepr (n : Nat) (cs : List Char) (h : headNotDigit cs = true) :
    parseNat (natRepr n ++ cs) = some (n, cs) := by
  have hlt : n < 10 ^ (n + 1) := by
    calc n < 2 ^ n := Nat.lt_two_pow n
    _ ≤ 10 ^ n := Nat.pow_le_pow_left (by norm_num) n
    _ ≤ 10 ^ (n + 1) := Nat.pow_le_pow_right (by norm_num) (Nat.le_succ n)
  have key : readDigits 0 (natRepr n ++ cs) = (n, cs) := by
    rw [show natRepr n = natReprAux (n + 1) n from rfl,
      readDigits_natReprAux (n + 1) n 0 cs hlt]
    simpa using readDigits_nonDigit n cs h
  cases hrep : natRepr n with
  | nil => exact absurd hrep (natRepr_ne_nil n)
  | cons c rest =>
    have hc : isDigitCh c = true := by
      apply natReprAux_all_digits (n + 1) n
      rw [show natReprAux (n + 1) n = natRepr n from rfl, hrep]
      exact List.mem_cons_self c rest
    rw [hrep] at key
    simp only [List.cons_append] at key ⊢
    simp [parseNat, hc, key]

theorem digit_ne (c d : Char) (h : isDigitCh c = true) (hd : isDigitCh d = false) : c ≠ d := by
  intro he
  rw [he] at h
  exact absurd h (by simp [hd])

/-! ### JSON codec round trip -/

theorem headNotDigit_cons (c : Char) (cs : List Char) (h : isDigitCh c = false) :
    headNotDigit (c :: cs) = true := by
  simp [headNotDigit, h]

theorem parseStrBody_escStr (l : List Char) :
    ∀ rest, parseStrBody (l.flatMap escChar ++ '"' :: rest) = some (l, rest) := by
  induction l with
  | nil =>
    intro rest
    conv_lhs => rw [parseStrBody.eq_def]
    simp
  | cons c l ih =>
    intro rest
    simp only [List.flatMap_cons, List.append_assoc]
    by_cases h1 : c = '"'
    · subst h1
      conv_lhs => rw [show escChar '"' = ['\\', '"'] from rfl]
      conv_lhs => rw [List.cons_append, List.cons_append, parseStrBody.eq_def]
      simp +decide [unescChar, ih rest]
    · by_cases h2 : c = '\\'
      · subst h2
        conv_lhs => rw [show escChar '\\' = ['\\', '\\'] from rfl]
        conv_lhs => rw [List.cons_append, List.cons_append, parseStrBody.eq_def]
        simp +decide [unescChar, ih rest]
      · by_cases h3 : c = '\n'
        · subst h3
          conv_lhs => rw [show escChar '\n' = ['\\', 'n'] from rfl]
          conv_lhs => rw [List.cons_append, List.cons_append, parseStrBody.eq_def]
          simp +decide [unescChar, ih rest]
        · by_cases h4 : c = '\t'
          · subst h4
            conv_lhs => rw [show escChar '\t' = ['\\', 't'] from rfl]
            conv_lhs => rw [List.cons_append, List.cons_append, parseStrBody.eq_def]
            simp +decide [unescChar, ih rest]
          · by_cases h5 : c = '\r'
            · subst h5
              conv_lhs => rw [show escChar '\r' = ['\\', 'r'] from rfl]
              conv_lhs => rw [List.cons_append, List.cons_append, parseStrBody.eq_def]
              simp +decide [unescChar, ih rest]
            · conv_lhs => rw [show escChar c = [c] by simp [escChar, h1, h2, h3, h4, h5]]
              conv_lhs => rw [List.singleton_append, parseStrBody.eq_def]
              simp [h1, h2, ih rest]

theorem parseJStr_dumpStr (s : String) (rest : List Char) :
    parseJStr (dumpStr s ++ rest) = some (s, rest) := by
  show parseJStr ('"' :: (escStr s ++ ['"']) ++ rest) = some (s, rest)
  simp only [List.cons_append, List.append_assoc, List.singleton_append]
  simp [parseJStr, escStr, parseStrBody_escStr s.data rest]

theorem parseJVal_dumpStr (s : String) (rest : List Char) :
    parseJVal (dumpStr s ++ rest) = some (.jstr s, rest) := by
  show parseJVal ('"' :: (escStr s ++ ['"']) ++ rest) = some (.jstr s, rest)
  simp only [List.cons_append]
  rw [parseJVal]
  rw [show ('"' :: ((escStr s ++ ['"']) ++ rest)) = dumpStr s ++ rest by
    simp [dumpStr, List.append_assoc]]
  simp [parseJStr_dumpStr]

theorem parseLit_digit (c : Char) (t : List Char) (hc : isDigitCh c = true) :
    parseLit (c :: t) = none := by
  rw [parseLit]
  rw [if_neg, if_neg, if_neg]
  · intro hf
    have hcf : c = 'f' := by
      have := congrArg (fun l => l.head?) hf
      simpa using this
    exact absurd hcf (digit_ne c 'f' hc (by decide))
  · intro hf
    have hct : c = 't' := by
      have := congrArg (fun l => l.head?) hf
      simpa using this
    exact absurd hct (digit_ne c 't' hc (by decide))
  · intro hf
    have hcn : c = 'n' := by
      have := congrArg (fun l => l.head?) hf
      simpa using this
    exact absurd hcn (digit_ne c 'n' hc (by decide))

theorem parseJVal_natRepr (n : Nat) (rest : List Char) (h : headNotDigit rest = true) :
    parseJVal (natRepr n ++ rest) = some (.jint (n : Int), rest) := by
  cases hrep : natRepr n with
  | nil => exact absurd hrep (natRepr_ne_nil n)
  | cons c t =>
    have hc : isDigitCh c = true := by
      apply natReprAux_all_digits (n + 1) n
      rw [show natReprAux (n + 1) n = natRepr n from rfl, hrep]
      exact List.mem_cons_self c t
    have hpn := parseNat_natRepr n rest h
    rw [hrep] at hpn
    simp only [List.cons_append] at hpn ⊢
    rw [parseJVal.eq_def]
    split
    · rename_i heq
      injection heq with h1 _
      exact absurd h1 (digit_ne c '"' hc (by decide))
    · rename_i heq
      injection heq with h1 _
      exact absurd h1 (digit_ne c '-' hc (by decide))
    · rw [parseLit_digit c (t ++ rest) hc, hpn]
      rfl

theorem parseJVal_dumpVal (v : JVal) (rest : List Char) (h : headNotDigit rest = true) :
    parseJVal (dumpVal v ++ rest) = some (v, rest) := by
  cases v with
  | jnull => simp +decide [dumpVal, parseJVal.eq_def, parseLit]
  | jbool b => cases b <;> simp +decide [dumpVal, parseJVal.eq_def, parseLit]
  | jstr s => exact parseJVal_dumpStr s rest
  | jint i =>
    rcases lt_or_ge i 0 with hi | hi
    · have hd : dumpVal (.jint i) = '-' :: natRepr i.natAbs := by
        simp [dumpVal, intRepr, hi]
      rw [hd]
      simp only [List.cons_append]
      rw [parseJVal.eq_def]
      split
      · rename_i heq
        injection heq with h1 _
        exact absurd h1 (by decide)
      · rename_i heq
        injection heq with h1 h2
        rw [← h2, parseNat_natRepr i.natAbs rest h]
        have hni : -(i.natAbs : Int) = i := by omega
        show some (JVal.jint (-(i.natAbs : Int)), rest) = some (JVal.jint i, rest)
        rw [hni]
      · rename_i hne
        exact (hne _ rfl).elim
    · have hd : dumpVal (.jint i) = natRepr i.toNat := by
        simp [dumpVal, intRepr, not_lt.mpr hi]
      rw [hd, parseJVal_natRepr i.toNat rest h]
      have : ((i.toNat : Nat) : Int) = i := by omega
      rw [this]

theorem parseItems_dumpObjItems :
    ∀ (m : JObj) (fuel : Nat) (rest : List Char), m ≠ [] → m.length ≤ fuel →
      parseItems fuel (dumpObjItems m ++ '\x7d' :: rest) = some (m, rest) := by
  intro m
  induction m with
  | nil => intro fuel rest hne; exact absurd rfl hne
  | cons kv m ih =>
    intro fuel rest _ hlen
    obtain ⟨k, v⟩ := kv
    cases fuel with
    | zero => simp at hlen
    | succ fuel =>
      cases m with
      | nil =>
        show parseItems (fuel + 1)
          ((dumpStr k ++ ':' :: ' ' :: dumpVal v) ++ '\x7d' :: rest) = _
        rw [parseItems]
        simp only [List.append_assoc, List.cons_append]
        rw [parseJStr_dumpStr]
        simp only [Option.bind_eq_bind, Option.some_bind]
        rw [parseJVal_dumpVal v ('\x7d' :: rest) (headNotDigit_cons _ _ (by decide))]
        rfl
      | cons kv2 m2 =>
        show parseItems (fuel + 1)
          ((dumpStr k ++ ':' :: ' ' :: (dumpVal v ++ ',' :: ' ' :: dumpObjItems (kv2 :: m2)))
            ++ '\x7d' :: rest) = _
        rw [parseItems]
        simp only [List.append_assoc, List.cons_append]
        rw [parseJStr_dumpStr]
        simp only [Option.bind_eq_bind, Option.some_bind]
        rw [parseJVal_dumpVal v (',' :: ' ' :: (dumpObjItems (kv2 :: m2) ++ '\x7d' :: rest))
          (headNotDigit_cons _ _ (by decide))]
        simp only [Option.some_bind]
        rw [ih fuel rest (by simp) (by simpa using hlen)]
        rfl

theorem dumpObjItems_shape (m : JObj) (h : m ≠ []) :
    ∃ t, dumpObjItems m = '"' :: t := by
  match m with
  | [(k, v)] => exact ⟨_, rfl⟩
  | (k, v) :: kv2 :: m2 => exact ⟨_, rfl⟩

theorem length_le_dumpObjItems (m : JObj) : m.length ≤ (dumpObjItems m).length := by
  induction m with
  | nil => simp
  | cons kv m ih =>
    obtain ⟨k, v⟩ := kv
    cases m with
    | nil => simp [dumpObjItems, dumpStr]
    | cons kv2 m2 =>
      show (_ : Nat) ≤ (dumpStr k ++ ':' :: ' ' :: (dumpVal v ++ ',' :: ' ' :: _)).length
      simp only [List.length_append, List.length_cons, List.length_cons]
      simp only [List.length_cons] at ih ⊢
      omega

/-- json.loads inverts json.dumps on every metadata dict. -/
theorem jloads_jdumps (m : JObj) : jloads (jdumps m) = some m := by
  cases m with
  | nil => rfl
  | cons kv m2 =>
    obtain ⟨t, ht⟩ := dumpObjItems_shape (kv :: m2) (by simp)
    have hdata : (jdumps (kv :: m2)).data = '\x7b' :: '"' :: (t ++ ['\x7d']) := by
      simp [jdumps, ht]
    have hitems := parseItems_dumpObjItems (kv :: m2) (('"' :: (t ++ ['\x7d'])).length + 1)
      [] (by simp) (by
        have h1 := length_le_dumpObjItems (kv :: m2)
        rw [ht] at h1
        simp only [List.length_cons, List.length_append] at h1 ⊢
        omega)
    rw [ht] at hitems
    rw [show ('"' :: t) ++ '\x7d' :: ([] : List Char) = '"' :: (t ++ ['\x7d']) by simp] at hitems
    rw [jloads.eq_def, hdata]
    have hlen : ('"' :: (t ++ ['\x7d'])).length + 1 = t.length + 1 + 1 + 1 := by simp
    rw [hlen] at hitems
    simp +decide [hitems]

/-! ### The dumped JSON and the formatted timestamp never contain the framing
characters (tab, newline), and never start or end with whitespace -/

theorem mem_escChar (c x : Char) (hx : x ∈ escChar c) : x ≠ '\t' ∧ x ≠ '\n' := by
  unfold escChar at hx
  set_option linter.unnecessarySeqFocus false in
  split_ifs at hx with h1 h2 h3 h4 h5 <;> simp at hx
  · rcases hx with rfl | rfl <;> exact ⟨by decide, by decide⟩
  · rcases hx with rfl | rfl <;> exact ⟨by decide, by decide⟩
  · rcases hx with rfl | rfl <;> exact ⟨by decide, by decide⟩
  · rcases hx with rfl | rfl <;> exact ⟨by decide, by decide⟩
  · rcases hx with rfl | rfl <;> exact ⟨by decide, by decide⟩
  · subst hx; exact ⟨h4, h3⟩

theorem mem_natRepr (n : Nat) (x : Char) (hx : x ∈ natRepr n) : x ≠ '\t' ∧ x ≠ '\n' := by
  have hd := natReprAux_all_digits (n + 1) n x hx
  exact ⟨digit_ne x '\t' hd (by decide), digit_ne x '\n' hd (by decide)⟩

theorem mem_intRepr (i : Int) (x : Char) (hx : x ∈ intRepr i) : x ≠ '\t' ∧ x ≠ '\n' := by
  unfold intRepr at hx
  split_ifs at hx
  · simp only [List.mem_cons] at hx
    rcases hx with rfl | hx
    · exact ⟨by decide, by decide⟩
    · exact mem_natRepr _ x hx
  · exact mem_natRepr _ x hx

theorem mem_dumpStr (s : String) (x : Char) (hx : x ∈ dumpStr s) : x ≠ '\t' ∧ x ≠ '\n' := by
  unfold dumpStr escStr at hx
  simp at hx
  rcases hx with rfl | ⟨c, _, hc⟩ | rfl
  · exact ⟨by decide, by decide⟩
  · exact mem_escChar c x hc
  · exact ⟨by decide, by decide⟩

theorem mem_dumpVal (v : JVal) (x : Char) (hx : x ∈ dumpVal v) : x ≠ '\t' ∧ x ≠ '\n' := by
  cases v with
  | jnull => simp [dumpVal] at hx; rcases hx with rfl | rfl | rfl <;> exact ⟨by decide, by decide⟩
  | jbool b =>
    cases b <;> simp [dumpVal] at hx
    · rcases hx with rfl | rfl | rfl | rfl | rfl <;> exact ⟨by decide, by decide⟩
    · rcases hx with rfl | rfl | rfl | rfl <;> exact ⟨by decide, by decide⟩
  | jint i => exact mem_intRepr i x hx
  | jstr s => exact mem_dumpStr s x hx

theorem mem_dumpObjItems (m : JObj) (x : Char) (hx : x ∈ dumpObjItems m) :
    x ≠ '\t' ∧ x ≠ '\n' := by
  induction m with
  | nil => simp [dumpObjItems] at hx
  | cons kv m2 ih =>
    obtain ⟨k, v⟩ := kv
    cases m2 with
    | nil =>
      simp only [dumpObjItems, List.mem_append, List.mem_cons] at hx
      rcases hx with hx | rfl | rfl | hx
      · exact mem_dumpStr k x hx
      · exact ⟨by decide, by decide⟩
      · exact ⟨by decide, by decide⟩
      · exact mem_dumpVal v x hx
    | cons kv2 m3 =>
      have hshape : dumpObjItems ((k, v) :: kv2 :: m3) =
          dumpStr k ++ ':' :: ' ' :: (dumpVal v ++ ',' :: ' ' :: dumpObjItems (kv2 :: m3)) := rfl
      rw [hshape] at hx
      simp only [List.mem_append, List.mem_cons] at hx
      rcases hx with hx | rfl | rfl | hx | rfl | rfl | hx
      · exact mem_dumpStr k x hx
      · exact ⟨by decide, by decide⟩
      · exact ⟨by decide, by decide⟩
      · exact mem_dumpVal v x hx
      · exact ⟨by decide, by decide⟩
      · exact ⟨by decide, by decide⟩
      · exact ih hx

theorem mem_jdumps (m : JObj) (x : Char) (hx : x ∈ (jdumps m).data) :
    x ≠ '\t' ∧ x ≠ '\n' := by
  unfold jdumps at hx
  simp at hx
  rcases hx with rfl | hx | rfl
  · exact ⟨by decide, by decide⟩
  · exact mem_dumpObjItems m x hx
  · exact ⟨by decide, by decide⟩

theorem jdumps_getLast (m : JObj) : (jdumps m).data.getLast? = some '\x7d' := by
  show ('\x7b' :: (dumpObjItems m ++ ['\x7d'])).getLast? = some '\x7d'
  rw [show '\x7b' :: (dumpObjItems m ++ ['\x7d']) = ('\x7b' :: dumpObjItems m) ++ ['\x7d'] by simp]
  exact List.getLast?_concat _

theorem isPySpace_digit (x : Char) (h : isDigitCh x = true) : isPySpace x = false := by
  have h1 := digit_ne x ' ' h (by decide)
  have h2 := digit_ne x '\t' h (by decide)
  have h3 := digit_ne x '\n' h (by decide)
  have h4 := digit_ne x '\r' h (by decide)
  have h5 := digit_ne x '\x0b' h (by decide)
  have h6 := digit_ne x '\x0c' h (by decide)
  simp [isPySpace, h1, h2, h3, h4, h5, h6]

theorem mem_pad2 (n : Nat) (x : Char) (hx : x ∈ pad2 n) : isDigitCh x = true := by
  simp only [pad2, List.mem_cons, List.not_mem_nil, or_false] at hx
  rcases hx with rfl | rfl
  · exact isDigitCh_digitChar _ (Nat.mod_lt _ (by norm_num))
  · exact isDigitCh_digitChar _ (Nat.mod_lt _ (by norm_num))

theorem mem_pad6 (n : Nat) (x : Char) (hx : x ∈ pad6 n) : isDigitCh x = true := by
  simp only [pad6, List.mem_cons, List.not_mem_nil, or_false] at hx
  rcases hx with rfl | rfl | rfl | rfl | rfl | rfl
  all_goals exact isDigitCh_digitChar _ (Nat.mod_lt _ (by norm_num))

theorem mem_fmtTS (t : DT) (x : Char) (hx : x ∈ fmtTS t) :
    isDigitCh x = true ∨ x = '-' ∨ x = '.' := by
  have h : x ∈ pad2 (t.year % 100) ++ (pad2 t.month ++ (pad2 t.day ++ '-' ::
      (pad2 t.hour ++ (pad2 t.minute ++ (pad2 t.second ++ '.' :: pad6 t.micro))))) := by
    simpa only [List.append_assoc] using hx
  rcases List.mem_append.mp h with h | h
  · exact .inl (mem_pad2 _ x h)
  rcases List.mem_append.mp h with h | h
  · exact .inl (mem_pad2 _ x h)
  rcases List.mem_append.mp h with h | h
  · exact .inl (mem_pad2 _ x h)
  rcases List.mem_cons.mp h with rfl | h
  · exact .inr (.inl rfl)
  rcases List.mem_append.mp h with h | h
  · exact .inl (mem_pad2 _ x h)
  rcases List.mem_append.mp h with h | h
  · exact .inl (mem_pad2 _ x h)
  rcases List.mem_append.mp h with h | h
  · exact .inl (mem_pad2 _ x h)
  rcases List.mem_cons.mp h with rfl | h
  · exact .inr (.inr rfl)
  · exact .inl (mem_pad6 _ x h)

theorem mem_fmtTS_ne (t : DT) (x : Char) (hx : x ∈ fmtTS t) : x ≠ '\t' ∧ x ≠ '\n' := by
  rcases mem_fmtTS t x hx with h | rfl | rfl
  · exact ⟨digit_ne x '\t' h (by decide), digit_ne x '\n' h (by decide)⟩
  · exact ⟨by decide, by decide⟩
  · exact ⟨by decide, by decide⟩

theorem fmtTS_head (t : DT) : (fmtTS t).head? = some (digitChar (t.year % 100 / 10 % 10)) := by
  unfold fmtTS pad2
  rfl

/-! ### Splitting and stripping lines -/

theorem splitOnChar_ne_nil (sep : Char) (l : List Char) : splitOnChar sep l ≠ [] := by
  cases l with
  | nil => simp [splitOnChar]
  | cons a as =>
    rw [splitOnChar.eq_def]
    cases h : splitOnChar sep as with
    | nil => simp [h]
    | cons f rest => by_cases ha : a = sep <;> simp [h, ha]

theorem splitOnChar_not_mem (sep : Char) (l : List Char) (h : sep ∉ l) :
    splitOnChar sep l = [l] := by
  induction l with
  | nil => rfl
  | cons c cs ih =>
    have hcs : sep ∉ cs := fun hm => h (List.mem_cons_of_mem c hm)
    have hc : ¬c = sep := fun he => h (he ▸ List.mem_cons_self c cs)
    rw [splitOnChar.eq_def]
    simp [ih hcs, hc]

theorem splitOnChar_append_sep (sep : Char) (l r : List Char) (h : sep ∉ l) :
    splitOnChar sep (l ++ sep :: r) = l :: splitOnChar sep r := by
  induction l with
  | nil =>
    rw [List.nil_append, splitOnChar.eq_def]
    cases hs : splitOnChar sep r with
    | nil => exact absurd hs (splitOnChar_ne_nil sep r)
    | cons f rest => simp [hs]
  | cons c cs ih =>
    have hcs : sep ∉ cs := fun hm => h (List.mem_cons_of_mem c hm)
    have hc : ¬c = sep := fun he => h (he ▸ List.mem_cons_self c cs)
    rw [List.cons_append, splitOnChar.eq_def]
    simp [ih hcs, hc]

theorem pyStrip_line (E : List Char) (c d : Char) (hh : E.head? = some c)
    (hl : E.getLast? = some d) (hc : isPySpace c = false) (hd : isPySpace d = false) :
    pyStrip (String.mk (E ++ ['\n'])) = String.mk E := by
  cases E with
  | nil => simp at hh
  | cons a as =>
    have hac : a = c := by simpa using hh
    subst hac
    show String.mk (((a :: as ++ ['\n']).dropWhile isPySpace).reverse.dropWhile
      isPySpace).reverse = String.mk (a :: as)
    apply congrArg
    have h1 : (a :: as ++ ['\n']).dropWhile isPySpace = a :: (as ++ ['\n']) := by
      rw [List.cons_append, List.dropWhile_cons, if_neg (by simp [hc])]
    have h2 : (a :: (as ++ ['\n'])).reverse = '\n' :: (a :: as).reverse := by simp
    rw [h1, h2, List.dropWhile_cons, if_pos (by decide)]
    cases hr : (a :: as).reverse with
    | nil => simp at hr
    | cons b bs =>
      have hbd : b = d := by
        have hh2 : (a :: as).reverse.head? = some d := by
          rw [List.head?_reverse]
          exact hl
        rw [hr] at hh2
        simpa using hh2
      subst hbd
      rw [List.dropWhile_cons, if_neg (by simp [hd]), ← hr, List.reverse_reverse]

/-! ### The timestamp codec round trip -/

theorem isDigitCh_digitChar_mod (n : Nat) : isDigitCh (digitChar (n % 10)) = true :=
  isDigitCh_digitChar _ (Nat.mod_lt _ (by norm_num))

theorem digitVal_digitChar_mod (n : Nat) : digitVal (digitChar (n % 10)) = n % 10 :=
  digitVal_digitChar _ (Nat.mod_lt _ (by norm_num))

theorem daysInMonth_le_31 (y m : Nat) : daysInMonth y m ≤ 31 := by
  unfold daysInMonth
  split_ifs <;> omega

theorem isLeap_centuryOf (y : Nat) (h : isLeap y = true) :
    isLeap (centuryOf (y % 100)) = true := by
  simp only [isLeap, Bool.or_eq_true, Bool.and_eq_true, decide_eq_true_eq,
    bne_iff_ne, ne_eq] at h ⊢
  unfold centuryOf
  by_cases h68 : y % 100 ≤ 68 <;> simp only [h68, if_true, if_false] <;> omega

theorem daysInMonth_centuryOf (y m : Nat) :
    daysInMonth y m ≤ daysInMonth (centuryOf (y % 100)) m := by
  unfold daysInMonth
  by_cases hm : m = 2
  · simp only [hm, if_true]
    by_cases hl : isLeap y = true
    · rw [isLeap_centuryOf y hl]
      simp [hl]
    · split_ifs <;> omega
  · simp [hm]

theorem fmtTS_list (t : DT) : fmtTS t =
    [digitChar (t.year % 100 / 10 % 10), digitChar (t.year % 100 % 10),
     digitChar (t.month / 10 % 10), digitChar (t.month % 10),
     digitChar (t.day / 10 % 10), digitChar (t.day % 10), '-',
     digitChar (t.hour / 10 % 10), digitChar (t.hour % 10),
     digitChar (t.minute / 10 % 10), digitChar (t.minute % 10),
     digitChar (t.second / 10 % 10), digitChar (t.second % 10), '.',
     digitChar (t.micro / 100000 % 10), digitChar (t.micro / 10000 % 10),
     digitChar (t.micro / 1000 % 10), digitChar (t.micro / 100 % 10),
     digitChar (t.micro / 10 % 10), digitChar (t.micro % 10)] := by
  simp [fmtTS, pad2, pad6]

/-- strptime inverts strftime on any valid timestamp, re-deriving the century
from the stored two-digit year. -/
theorem parseTS_fmtTS (t : DT) (hv : DTValid t) :
    parseTS (String.mk (fmtTS t)) = some (remapYear t) := by
  obtain ⟨hmo1, hmo2, hd1, hd2, hh, hmi, hs, hus⟩ := hv
  have hy100 : t.year % 100 < 100 := Nat.mod_lt _ (by norm_num)
  have hdim := daysInMonth_centuryOf t.year t.month
  unfold parseTS
  rw [show (String.mk (fmtTS t)).data = fmtTS t from rfl]
  rw [fmtTS_list]
  simp only [List.length_cons, List.length_nil]
  norm_num
  simp only [isDigitCh_digitChar_mod, digitVal_digitChar_mod]
  norm_num
  have e1 : 10 * (t.year % 100 / 10 % 10) + t.year % 10 = t.year % 100 := by omega
  have e2 : 10 * (t.month / 10 % 10) + t.month % 10 = t.month := by omega
  have e3 : 10 * (t.day / 10 % 10) + t.day % 10 = t.day := by
    have := daysInMonth_le_31 t.year t.month
    omega
  have e4 : 10 * (t.hour / 10 % 10) + t.hour % 10 = t.hour := by omega
  have e5 : 10 * (t.minute / 10 % 10) + t.minute % 10 = t.minute := by omega
  have e6 : 10 * (t.second / 10 % 10) + t.second % 10 = t.second := by omega
  have e7 : 100000 * (t.micro / 100000 % 10) + 10000 * (t.micro / 10000 % 10) +
      1000 * (t.micro / 1000 % 10) + 100 * (t.micro / 100 % 10) +
      10 * (t.micro / 10 % 10) + t.micro % 10 = t.micro := by omega
  rw [e1, e2, e3, e4, e5, e6, e7]
  exact ⟨⟨hmo1, hmo2, hd1, le_trans hd2 hdim, hh, hmi, hs⟩, rfl⟩

/-! ### The record codec round trip -/

/-- The character list of an encoded record line. -/
theorem encodeLine_data (ts : DT) (vt vn : String) (v : JVal) (m : JObj) :
    (encodeLine ts vt vn v m).data =
      fmtTS ts ++ '\t' :: (vt.data ++ '\t' :: (vn.data ++ '\t' ::
        ((pyStr v).data ++ '\t' :: (jdumps m).data))) := by
  unfold encodeLine
  simp only [String.data_append]
  simp [List.append_assoc]

theorem jdumps_data_ne_nil (m : JObj) : (jdumps m).data ≠ [] := by
  show '\x7b' :: (dumpObjItems m ++ ['\x7d']) ≠ []
  simp

/-- Decoding inverts encoding: a record whose var_type, var_name and
stringified value are tab- and newline-free, whose timestamp is a valid
datetime and whose metadata contains no 'value' key decodes back to the same
fields (the timestamp's century re-derived by the %y rule). -/
theorem decode_encodeLine (ts : DT) (vt vn : String) (v : JVal) (m : JObj)
    (hts : DTValid ts) (hvtf : noTabNl vt) (hvnf : noTabNl vn)
    (hvf : noTabNl (pyStr v)) (hm : "value" ∉ m.map Prod.fst) :
    decodeLineStep none none (encodeLine ts vt vn v m ++ "\n") =
      .ok ⟨remapYear ts, vt, vn, pyStr v, m⟩ := by
  have hE := encodeLine_data ts vt vn v m
  -- strip removes exactly the trailing newline: the line starts with a digit
  -- of the timestamp and ends with the closing brace of the JSON field
  have hhead : ((encodeLine ts vt vn v m).data).head? =
      some (digitChar (ts.year % 100 / 10 % 10)) := by
    rw [hE, fmtTS_list]
    rfl
  have hlast : ((encodeLine ts vt vn v m).data).getLast? = some '\x7d' := by
    rw [hE]
    rw [show fmtTS ts ++ '\t' :: (vt.data ++ '\t' :: (vn.data ++ '\t' ::
        ((pyStr v).data ++ '\t' :: (jdumps m).data))) =
      (fmtTS ts ++ '\t' :: (vt.data ++ '\t' :: (vn.data ++ '\t' ::
        ((pyStr v).data ++ ['\t'])))) ++ (jdumps m).data by simp]
    rw [List.getLast?_append, jdumps_getLast]
    rfl
  have hdata2 : (encodeLine ts vt vn v m ++ "\n").data =
      (encodeLine ts vt vn v m).data ++ ['\n'] := by
    rw [String.data_append]
  have hline : encodeLine ts vt vn v m ++ "\n" =
      String.mk ((encodeLine ts vt vn v m).data ++ ['\n']) := by
    conv_lhs => rw [show (encodeLine ts vt vn v m ++ "\n") =
      String.mk ((encodeLine ts vt vn v m ++ "\n").data) from rfl]
    rw [hdata2]
  have hstrip : pyStrip (encodeLine ts vt vn v m ++ "\n") =
      String.mk ((encodeLine ts vt vn v m).data) := by
    rw [hline]
    exact pyStrip_line _ _ _ hhead hlast
      (isPySpace_digit _ (isDigitCh_digitChar_mod _)) (by decide)
  have hsplit : splitOnChar '\t' ((encodeLine ts vt vn v m).data) =
      [fmtTS ts, vt.data, vn.data, (pyStr v).data, (jdumps m).data] := by
    rw [hE]
    rw [splitOnChar_append_sep '\t' _ _ (fun hmem => (mem_fmtTS_ne ts '\t' hmem).1 rfl)]
    rw [splitOnChar_append_sep '\t' _ _ (fun hmem => hvtf.1 hmem)]
    rw [splitOnChar_append_sep '\t' _ _ (fun hmem => hvnf.1 hmem)]
    rw [splitOnChar_append_sep '\t' _ _ (fun hmem => hvf.1 hmem)]
    rw [splitOnChar_not_mem '\t' _ (fun hmem => (mem_jdumps m '\t' hmem).1 rfl)]
  have hfields : pySplit '\t' (pyStrip (encodeLine ts vt vn v m ++ "\n")) =
      [String.mk (fmtTS ts), vt, vn, pyStr v, jdumps m] := by
    rw [hstrip]
    unfold pySplit
    rw [show (String.mk ((encodeLine ts vt vn v m).data)).data =
      (encodeLine ts vt vn v m).data from rfl]
    rw [hsplit]
    rfl
  have hany : (m.any (fun p => p.1 = "value")) = false := by
    rw [List.any_eq_false]
    intro p hp
    simp only [decide_eq_true_eq]
    intro hpv
    exact hm (List.mem_map.mpr ⟨p, hp, hpv⟩)
  unfold decodeLineStep
  rw [hfields]
  simp [parseTS_fmtTS ts hts, jloads_jdumps m, filterFail, hany]

/-! ### The per-day scan: corrupted lines are logged and skipped, the scan
never aborts unless a line's metadata collides on the value keyword -/

theorem scanLines_characterization (lines : List String) :
    ∀ n, (∀ l ∈ lines, decodeLineStep none none l ≠ .collide) →
      scanLines none none n lines =
        ⟨lines.filterMap (fun l => stepEvent (decodeLineStep none none l)),
         (List.enumFrom n lines).filterMap
           (fun p => if decodeLineStep none none p.2 = .corrupt then some p.1 else none),
         false⟩ := by
  induction lines with
  | nil => intro n _; rfl
  | cons l rest ih =>
    intro n hno
    have hrest : ∀ l' ∈ rest, decodeLineStep none none l' ≠ .collide :=
      fun l' hl' => hno l' (List.mem_cons_of_mem l hl')
    have hl := hno l (List.mem_cons_self l rest)
    rw [scanLines.eq_def]
    cases hd : decodeLineStep none none l with
    | collide => exact absurd hd hl
    | ok e =>
      simp only [ih (n + 1) hrest]
      simp [List.enumFrom, List.filterMap_cons, hd, stepEvent]
    | corrupt =>
      simp only [ih (n + 1) hrest]
      simp [List.enumFrom, List.filterMap_cons, hd, stepEvent]
    | filtered =>
      simp only [ih (n + 1) hrest]
      simp [List.enumFrom, List.filterMap_cons, hd, stepEvent]

theorem get_events_for_day_characterization (store : Store) (y m d : Nat)
    (h : ∀ l ∈ linesOfDay store y m d, decodeLineStep none none l ≠ .collide) :
    get_events_for_day store y m d none none =
      ⟨(linesOfDay store y m d).filterMap (fun l => stepEvent (decodeLineStep none none l)),
       (List.enumFrom 1 (linesOfDay store y m d)).filterMap
         (fun p => if decodeLineStep none none p.2 = .corrupt then some p.1 else none),
       false⟩ := by
  unfold get_events_for_day
  unfold linesOfDay at h ⊢
  cases hr : storeRead store (y % 100, m, d) with
  | none => rfl
  | some content =>
    rw [hr] at h
    exact scanLines_characterization (fileLines content) 1 h

/-! ### The sorted day listing -/

theorem sortedKeys_perm (store : Store) :
    (sortedKeys store).Perm (store.map (fun p => p.1)) :=
  List.perm_insertionSort _ _

theorem mem_sortedKeys (store : Store) (k : DayKey) :
    k ∈ sortedKeys store ↔ k ∈ store.map (fun p => p.1) :=
  (sortedKeys_perm store).mem_iff

theorem sortedKeys_nodup (store : Store) (h : (store.map (fun p => p.1)).Nodup) :
    (sortedKeys store).Nodup :=
  ((sortedKeys_perm store).nodup_iff).mpr h

/-- On well-formed two-digit keys the filename (sortKey) order agrees with
the chronological order of the parsed dates when the %y century rule maps
all years into 2000-2068. -/
theorem sortKey_lt_dateKey (k1 k2 : DayKey) (h1 : ValidKey k1) (h2 : ValidKey k2)
    (hc1 : k1.1 ≤ 68) (hc2 : k2.1 ≤ 68) (h : sortKey k1 < sortKey k2) :
    (dateOfKey k1).key < (dateOfKey k2).key := by
  obtain ⟨hy1, hm1a, hm1b, hd1a, hd1b⟩ := h1
  obtain ⟨hy2, hm2a, hm2b, hd2a, hd2b⟩ := h2
  have hb1 := daysInMonth_le_31 (centuryOf k1.1) k1.2.1
  have hb2 := daysInMonth_le_31 (centuryOf k2.1) k2.2.1
  unfold sortKey at h
  unfold dateOfKey PDate.key centuryOf
  simp only [hc1, hc2, if_true]
  omega

theorem sortKey_inj_valid (k1 k2 : DayKey) (h1 : ValidKey k1) (h2 : ValidKey k2)
    (h : sortKey k1 = sortKey k2) : k1 = k2 := by
  obtain ⟨hy1, hm1a, hm1b, hd1a, hd1b⟩ := h1
  obtain ⟨hy2, hm2a, hm2b, hd2a, hd2b⟩ := h2
  have hb1 := daysInMonth_le_31 (centuryOf k1.1) k1.2.1
  have hb2 := daysInMonth_le_31 (centuryOf k2.1) k2.2.1
  unfold sortKey at h
  have e1 : k1.1 = k2.1 := by omega
  have e2 : k1.2.1 = k2.2.1 := by omega
  have e3 : k1.2.2 = k2.2.2 := by omega
  exact Prod.ext e1 (Prod.ext e2 e3)

/-- On a store of distinct well-formed keys in the 2000-2068 range, the
sorted key list is strictly ascending in the chronological order of the
parsed dates. -/
theorem keys_pairwise_dateOfKey (store : Store)
    (hn : (store.map (fun p => p.1)).Nodup)
    (hv : ∀ k ∈ store.map (fun p => p.1), ValidKey k ∧ k.1 ≤ 68) :
    (sortedKeys store).Pairwise (fun a b => (dateOfKey a).key < (dateOfKey b).key) := by
  have hs : (sortedKeys store).Pairwise (fun a b => sortKey a ≤ sortKey b) :=
    List.sorted_insertionSort _ _
  have hnd : (sortedKeys store).Nodup := sortedKeys_nodup store hn
  have hcomb := hs.and hnd
  refine hcomb.imp_of_mem ?_
  intro a b ha hb hab
  have hva := hv a ((mem_sortedKeys store a).mp ha)
  have hvb := hv b ((mem_sortedKeys store b).mp hb)
  have hlt : sortKey a < sortKey b := by
    rcases Nat.lt_or_ge (sortKey a) (sortKey b) with h | h
    · exact h
    · have : sortKey a = sortKey b := le_antisymm hab.1 h
      exact absurd (sortKey_inj_valid a b hva.1 hvb.1 this) hab.2
  exact sortKey_lt_dateKey a b hva.1 hvb.1 hva.2 hvb.2 hlt

theorem sortedKeys_eq_nil_iff (store : Store) : sortedKeys store = [] ↔ store = [] := by
  constructor
  · intro h
    have hperm := sortedKeys_perm store
    rw [h] at hperm
    have hmap : store.map (fun p => p.1) = [] := hperm.symm.eq_nil
    exact List.map_eq_nil_iff.mp hmap
  · intro h
    subst h
    rfl

/-- The day listing, as dates, is strictly ascending for a store of distinct
well-formed keys in the 2000-2068 range. -/
theorem availDates_pairwise (store : Store)
    (hn : (store.map (fun p => p.1)).Nodup)
    (hv : ∀ k ∈ store.map (fun p => p.1), ValidKey k ∧ k.1 ≤ 68) :
    ((sortedKeys store).map dateOfKey).Pairwise (fun a b => a.key < b.key) := by
  rw [List.pairwise_map]
  exact keys_pairwise_dateOfKey store hn hv

theorem get_available_days_noarg (store : Store)
    (hv : ∀ k ∈ store.map (fun p => p.1), ValidKey k) :
    get_available_days store .noarg = .ok ((sortedKeys store).map dateOfKey) := by
  unfold get_available_days
  have hall : ((sortedKeys store).all (fun k => decide (ValidKey k))) = true := by
    rw [List.all_eq_true]
    intro k hk
    simp only [decide_eq_true_eq]
    exact hv k ((mem_sortedKeys store k).mp hk)
  simp [MonthArg.truthy, MonthArg.isTuple, hall]

/-! ### Minimum and maximum of a strictly sorted day list -/

theorem head_eq_of_min (l : List PDate) (d : PDate)
    (hs : l.Pairwise (fun a b => a.key < b.key)) (hd : d ∈ l)
    (hmin : ∀ x ∈ l, d.key ≤ x.key) : l.head? = some d := by
  cases l with
  | nil => simp at hd
  | cons a rest =>
    rcases List.mem_cons.mp hd with rfl | hmem
    · rfl
    · have hlt : a.key < d.key := (List.pairwise_cons.mp hs).1 d hmem
      have hle : d.key ≤ a.key := hmin a (List.mem_cons_self a rest)
      omega

theorem getLast_eq_of_max (l : List PDate) (d : PDate)
    (hs : l.Pairwise (fun a b => a.key < b.key)) (hd : d ∈ l)
    (hmax : ∀ x ∈ l, x.key ≤ d.key) : l.getLast? = some d := by
  induction l with
  | nil => simp at hd
  | cons a rest ih =>
    cases rest with
    | nil =>
      rcases List.mem_cons.mp hd with rfl | hmem
      · rfl
      · simp at hmem
    | cons b rest2 =>
      rw [List.getLast?_cons_cons]
      have hs2 : (b :: rest2).Pairwise (fun a b => a.key < b.key) :=
        (List.pairwise_cons.mp hs).2
      have hd2 : d ∈ b :: rest2 := by
        rcases List.mem_cons.mp hd with rfl | hmem
        · have h1 : d.key < b.key :=
            (List.pairwise_cons.mp hs).1 b (List.mem_cons_self b rest2)
          have h2 : b.key ≤ d.key := hmax b (by simp)
          omega
        · exact hmem
      exact ih hs2 hd2 (fun x hx => hmax x (List.mem_cons_of_mem a hx))

/-! ### Datetime order against calendar-day order -/

theorem toNat_lt_toDate_key (a b : DT) (hva : DTValid a) (hvb : DTValid b)
    (h : a.toNat < b.toNat) : a.toDate.key ≤ b.toDate.key := by
  obtain ⟨ha1, ha2, ha3, ha4, ha5, ha6, ha7, ha8⟩ := hva
  obtain ⟨hb1, hb2, hb3, hb4, hb5, hb6, hb7, hb8⟩ := hvb
  have hda := daysInMonth_le_31 a.year a.month
  have hdb := daysInMonth_le_31 b.year b.month
  unfold DT.toNat at h
  unfold DT.toDate PDate.key
  dsimp only
  omega

theorem toDate_key_lt_toNat (a b : DT) (hva : DTValid a) (hvb : DTValid b)
    (h : a.toDate.key < b.toDate.key) : a.toNat < b.toNat := by
  obtain ⟨ha1, ha2, ha3, ha4, ha5, ha6, ha7, ha8⟩ := hva
  obtain ⟨hb1, hb2, hb3, hb4, hb5, hb6, hb7, hb8⟩ := hvb
  have hda := daysInMonth_le_31 a.year a.month
  have hdb := daysInMonth_le_31 b.year b.month
  unfold DT.toNat
  unfold DT.toDate PDate.key at h
  dsimp only at h
  omega

theorem pdate_key_inj (d1 d2 : PDate)
    (hm1a : 1 ≤ d1.month) (hm1b : d1.month ≤ 12) (hd1a : 1 ≤ d1.day) (hd1b : d1.day ≤ 31)
    (hm2a : 1 ≤ d2.month) (hm2b : d2.month ≤ 12) (hd2a : 1 ≤ d2.day) (hd2b : d2.day ≤ 31)
    (h : d1.key = d2.key) : d1 = d2 := by
  obtain ⟨y1, m1, dd1⟩ := d1
  obtain ⟨y2, m2, dd2⟩ := d2
  unfold PDate.key at h
  dsimp only at h
  simp only [PDate.mk.injEq]
  simp only at hm1a hm1b hd1a hd1b hm2a hm2b hd2a hd2b
  omega

/-! ### Consequences of a well-formed store -/

theorem centuryOf_mod (yy : Nat) (h : yy ≤ 99) : centuryOf yy % 100 = yy := by
  unfold centuryOf
  split_ifs <;> omega

theorem dateOfKey_key_roundtrip (k : DayKey) (h : k.1 ≤ 99) :
    ((dateOfKey k).year % 100, (dateOfKey k).month, (dateOfKey k).day) = k := by
  unfold dateOfKey
  dsimp only
  exact Prod.ext (centuryOf_mod k.1 h) (Prod.ext rfl rfl)

theorem storeRead_mem (store : Store) (k : DayKey)
    (hk : k ∈ store.map (fun p => p.1)) :
    ∃ p, p ∈ store ∧ p.1 = k ∧ storeRead store k = some p.2 := by
  have hex : ∃ x ∈ store, (fun p => decide (p.1 = k)) x = true := by
    obtain ⟨p, hp, hpk⟩ := List.mem_map.mp hk
    exact ⟨p, hp, by simp [hpk]⟩
  have hsome : (store.find? (fun p => p.1 = k)).isSome := by
    rw [List.find?_isSome]
    exact hex
  cases hf : store.find? (fun p => p.1 = k) with
  | none => rw [hf] at hsome; simp at hsome
  | some p =>
    refine ⟨p, List.mem_of_find?_eq_some hf, ?_, ?_⟩
    · have := List.find?_some hf
      simpa using this
    · unfold storeRead
      rw [hf]
      rfl

theorem wf_line (store : Store) (hwf : WFStore store) (k : DayKey)
    (hk : k ∈ store.map (fun p => p.1)) (l : String)
    (hl : l ∈ linesOfDay store (dateOfKey k).year (dateOfKey k).month (dateOfKey k).day) :
    lineOK k l = true := by
  have hvk := (hwf.2.1 k hk).1
  have h99 : k.1 ≤ 99 := hvk.1
  unfold linesOfDay at hl
  rw [show ((dateOfKey k).year % 100, (dateOfKey k).month, (dateOfKey k).day) = k from
    dateOfKey_key_roundtrip k h99] at hl
  obtain ⟨p, hp, hpk, hread⟩ := storeRead_mem store k hk
  rw [hread] at hl
  have := hwf.2.2 p hp l hl
  rw [hpk] at this
  exact this

theorem lineOK_no_collide (k : DayKey) (l : String) (h : lineOK k l = true) :
    decodeLineStep none none l ≠ .collide := by
  unfold lineOK at h
  intro hc
  rw [hc] at h
  simp at h

theorem lineOK_ok (k : DayKey) (l : String) (e : PyEvent) (h : lineOK k l = true)
    (he : decodeLineStep none none l = .ok e) :
    e.timestamp.toDate = dateOfKey k ∧ DTValid e.timestamp := by
  unfold lineOK at h
  rw [he] at h
  simpa using h

theorem dayScan_no_abort (store : Store) (hwf : WFStore store) (k : DayKey)
    (hk : k ∈ store.map (fun p => p.1)) :
    (get_events_for_day store (dateOfKey k).year (dateOfKey k).month (dateOfKey k).day
      none none).aborted = false := by
  rw [get_events_for_day_characterization store _ _ _
    (fun l hl => lineOK_no_collide k l (wf_line store hwf k hk l hl))]

theorem mem_dayEvents_wf (store : Store) (hwf : WFStore store) (k : DayKey)
    (hk : k ∈ store.map (fun p => p.1)) (e : PyEvent)
    (he : e ∈ dayEvents store (dateOfKey k)) :
    e.timestamp.toDate = dateOfKey k ∧ DTValid e.timestamp := by
  unfold dayEvents at he
  rw [get_events_for_day_characterization store _ _ _
    (fun l hl => lineOK_no_collide k l (wf_line store hwf k hk l hl))] at he
  simp only at he
  obtain ⟨l, hl, hsome⟩ := List.mem_filterMap.mp he
  have hdec : decodeLineStep none none l = .ok e := by
    unfold stepEvent at hsome
    cases hd : decodeLineStep none none l <;> rw [hd] at hsome <;> simp at hsome
    rw [hsome]
  exact lineOK_ok k l e (wf_line store hwf k hk l hl) hdec

/-! ### The multi-day loop -/

theorem geDays_characterization (store : Store) (ft tt : Option DT)
    (vtf vnf : Option String) (first last : Option PDate) (days : List PDate)
    (hab : ∀ day ∈ days,
      (get_events_for_day store day.year day.month day.day none none).aborted = false) :
    geDays store ft tt vtf vnf first last days =
      (days.flatMap (fun day =>
        (get_events_for_day store day.year day.month day.day none none).events.filter
          (geKeep ft tt vtf vnf first last day)), false) := by
  induction days with
  | nil => rfl
  | cons day rest ih =>
    rw [geDays.eq_def]
    have h1 := hab day (List.mem_cons_self day rest)
    have h2 := ih (fun d hd => hab d (List.mem_cons_of_mem day hd))
    simp only [h1, Bool.false_eq_true, if_false, h2, List.flatMap_cons]

theorem scannedDays_subset (avail : List PDate) (fd td : Option PDate) (d : PDate)
    (h : d ∈ scannedDays avail fd td) : d ∈ avail := by
  unfold scannedDays at h
  split_ifs at h
  · exact (List.mem_filter.mp h).1
  · exact h

theorem scannedDays_pairwise (avail : List PDate) (fd td : Option PDate)
    (h : avail.Pairwise (fun a b => a.key < b.key)) :
    (scannedDays avail fd td).Pairwise (fun a b => a.key < b.key) := by
  unfold scannedDays
  split_ifs
  · exact h.filter _
  · exact h

theorem mem_scannedDays_from (avail : List PDate) (td : Option PDate) (d f : PDate)
    (h : d ∈ scannedDays avail (some f) td) : f.key ≤ d.key := by
  unfold scannedDays at h
  simp only [Option.isSome_some, Bool.true_or, if_true] at h
  have := (List.mem_filter.mp h).2
  simp only [Bool.and_eq_true, decide_eq_true_eq] at this
  exact this.1

theorem mem_scannedDays_to (avail : List PDate) (fd : Option PDate) (d t : PDate)
    (h : d ∈ scannedDays avail fd (some t)) : d.key ≤ t.key := by
  unfold scannedDays at h
  simp only [Option.isSome_some, Bool.or_true, if_true] at h
  have := (List.mem_filter.mp h).2
  simp only [Bool.and_eq_true, decide_eq_true_eq] at this
  exact this.2

theorem mem_scannedDays_intro (avail : List PDate) (fd td : Option PDate) (d : PDate)
    (hd : d ∈ avail) (hf : ∀ f, fd = some f → f.key ≤ d.key)
    (ht : ∀ t, td = some t → d.key ≤ t.key) : d ∈ scannedDays avail fd td := by
  unfold scannedDays
  split_ifs with hif
  · refine List.mem_filter.mpr ⟨hd, ?_⟩
    simp only [Bool.and_eq_true]
    constructor
    · cases fd with
      | none => rfl
      | some f => simpa using hf f rfl
    · cases td with
      | none => rfl
      | some t => simpa using ht t rfl
  · exact hd

theorem dateOfKey_bounds (k : DayKey) (hv : ValidKey k) :
    1 ≤ (dateOfKey k).month ∧ (dateOfKey k).month ≤ 12 ∧
    1 ≤ (dateOfKey k).day ∧ (dateOfKey k).day ≤ 31 := by
  obtain ⟨h1, h2, h3, h4, h5⟩ := hv
  have := daysInMonth_le_31 (centuryOf k.1) k.2.1
  unfold dateOfKey
  dsimp only
  omega

theorem toDate_bounds (t : DT) (hv : DTValid t) :
    1 ≤ t.toDate.month ∧ t.toDate.month ≤ 12 ∧ 1 ≤ t.toDate.day ∧ t.toDate.day ≤ 31 := by
  obtain ⟨h1, h2, h3, h4, h5, h6, h7, h8⟩ := hv
  have := daysInMonth_le_31 t.year t.month
  unfold DT.toDate
  dsimp only
  omega

theorem get_events_ok (store : Store) (ft tt : Option DT) (vtf vnf : Option String)
    (hv : ∀ k ∈ store.map (fun p => p.1), ValidKey k) :
    get_events store ft tt vtf vnf =
      .ok (geDays store ft tt vtf vnf
        (scannedDays ((sortedKeys store).map dateOfKey) (ft.map DT.toDate)
          (tt.map DT.toDate)).head?
        (scannedDays ((sortedKeys store).map dateOfKey) (ft.map DT.toDate)
          (tt.map DT.toDate)).getLast?
        (scannedDays ((sortedKeys store).map dateOfKey) (ft.map DT.toDate)
          (tt.map DT.toDate))) := by
  unfold get_events
  rw [get_available_days_noarg store hv]

/-- **C4** For every get_events query with inclusive bounds from_time and/or
to_time on a well-formed store: the query raises nothing, only events of the
first scanned day with timestamp strictly before from_time are dropped and
only events of the last scanned day with timestamp strictly after to_time are
dropped (completeness conjunct: every day-scan event not hit by these two
trims is in the result, so intermediate days are never time-trimmed and an
event whose timestamp equals a bound is included), and no event before
from_time or after to_time — in particular one a single microsecond past
to_time — ever appears in the result. -/
theorem c4_get_events_boundary_trimming (store : Store) (from_time to_time : Option DT)
    (hwf : WFStore store)
    (hft : ∀ f, from_time = some f → DTValid f)
    (htt : ∀ g, to_time = some g → DTValid g) :
    ∃ evs : List PyEvent,
      get_events store from_time to_time none none = Except.ok (evs, false) ∧
      (∀ d ∈ scannedDays ((sortedKeys store).map dateOfKey) (from_time.map DT.toDate)
          (to_time.map DT.toDate),
        ∀ e ∈ dayEvents store d,
        (∀ f, from_time = some f →
          (scannedDays ((sortedKeys store).map dateOfKey) (from_time.map DT.toDate)
            (to_time.map DT.toDate)).head? = some d → ¬ e.timestamp.toNat < f.toNat) →
        (∀ g, to_time = some g →
          (scannedDays ((sortedKeys store).map dateOfKey) (from_time.map DT.toDate)
            (to_time.map DT.toDate)).getLast? = some d → ¬ g.toNat < e.timestamp.toNat) →
        e ∈ evs) ∧
      (∀ e ∈ evs, ∀ f, from_time = some f → f.toNat ≤ e.timestamp.toNat) ∧
      (∀ e ∈ evs, ∀ g, to_time = some g → e.timestamp.toNat ≤ g.toNat) := by
  have hnodup := hwf.1
  have hvkeys := hwf.2.1
  set avail := (sortedKeys store).map dateOfKey with havail
  set scanned := scannedDays avail (from_time.map DT.toDate) (to_time.map DT.toDate)
    with hscanned
  have hdayk : ∀ d ∈ scanned, ∃ k, k ∈ store.map (fun p => p.1) ∧ dateOfKey k = d := by
    intro d hd
    have hda : d ∈ avail := scannedDays_subset avail _ _ d hd
    rw [havail] at hda
    obtain ⟨k, hk, hdk⟩ := List.mem_map.mp hda
    exact ⟨k, (mem_sortedKeys store k).mp hk, hdk⟩
  have hpair : scanned.Pairwise (fun a b => a.key < b.key) :=
    scannedDays_pairwise _ _ _ (availDates_pairwise store hnodup hvkeys)
  have hab : ∀ d ∈ scanned,
      (get_events_for_day store d.year d.month d.day none none).aborted = false := by
    intro d hd
    obtain ⟨k, hk, hdk⟩ := hdayk d hd
    rw [← hdk]
    exact dayScan_no_abort store hwf k hk
  have hchar := geDays_characterization store from_time to_time none none
    scanned.head? scanned.getLast? scanned hab
  refine ⟨scanned.flatMap (fun day =>
      (get_events_for_day store day.year day.month day.day none none).events.filter
        (geKeep from_time to_time none none scanned.head? scanned.getLast? day)),
    ?_, ?_, ?_, ?_⟩
  · rw [get_events_ok store from_time to_time none none (fun k hk => (hvkeys k hk).1)]
    rw [hchar]
  · -- completeness: an event not hit by the first-day / last-day trim is kept
    intro d hd e he hf ht
    refine List.mem_flatMap.mpr ⟨d, hd, List.mem_filter.mpr ⟨he, ?_⟩⟩
    unfold geKeep
    have h3 : filterFail none e.var_type = false := rfl
    have h4 : filterFail none e.var_name = false := rfl
    rw [h3, h4]
    have hfrom : ∀ (o : Option DT),
        (∀ f, o = some f → scanned.head? = some d → ¬ e.timestamp.toNat < f.toNat) →
        (match o with
         | none => false
         | some ft => scanned.head? = some d && decide (e.timestamp.toNat < ft.toNat)) =
          false := by
      intro o ho
      cases o with
      | none => rfl
      | some f =>
        by_cases hh : scanned.head? = some d
        · simp [hh, ho f rfl hh]
        · simp [hh]
    have hto : ∀ (o : Option DT),
        (∀ g, o = some g → scanned.getLast? = some d → ¬ g.toNat < e.timestamp.toNat) →
        (match o with
         | none => false
         | some tt => scanned.getLast? = some d && decide (e.timestamp.toNat > tt.toNat)) =
          false := by
      intro o ho
      cases o with
      | none => rfl
      | some g =>
        by_cases hh : scanned.getLast? = some d
        · have hng := ho g rfl hh
          simp [hh, hng]
        · simp [hh]
    rw [hfrom from_time hf, hto to_time ht]
    rfl
  · -- nothing before from_time is ever yielded
    intro e hev f hfeq
    obtain ⟨d, hd, hfil⟩ := List.mem_flatMap.mp hev
    obtain ⟨he, hkeep⟩ := List.mem_filter.mp hfil
    obtain ⟨k, hk, hdk⟩ := hdayk d hd
    have he' : e ∈ dayEvents store (dateOfKey k) := by rw [hdk]; exact he
    have hwfd := mem_dayEvents_wf store hwf k hk e he'
    by_contra hcon
    push_neg at hcon
    have hvf := hft f hfeq
    have hdle : e.timestamp.toDate.key ≤ f.toDate.key :=
      toNat_lt_toDate_key _ _ hwfd.2 hvf hcon
    have hd' : d ∈ scannedDays avail (some f.toDate) (to_time.map DT.toDate) := by
      rw [hscanned, hfeq] at hd
      exact hd
    have hdmem : f.toDate.key ≤ d.key := mem_scannedDays_from avail _ d f.toDate hd'
    have hdkey : d.key = e.timestamp.toDate.key := by rw [hwfd.1, hdk]
    have hkeyeq : d.key = f.toDate.key := by omega
    have hdbounds := dateOfKey_bounds k (hvkeys k hk).1
    rw [hdk] at hdbounds
    have hfbounds := toDate_bounds f hvf
    have hhead : scanned.head? = some d := by
      refine head_eq_of_min scanned d hpair hd ?_
      intro x hx
      have hx' : x ∈ scannedDays avail (some f.toDate) (to_time.map DT.toDate) := by
        rw [hscanned, hfeq] at hx
        exact hx
      have := mem_scannedDays_from avail _ x f.toDate hx'
      omega
    unfold geKeep at hkeep
    rw [hfeq] at hkeep
    simp [hhead, hcon] at hkeep
  · -- nothing after to_time is ever yielded
    intro e hev g hgeq
    obtain ⟨d, hd, hfil⟩ := List.mem_flatMap.mp hev
    obtain ⟨he, hkeep⟩ := List.mem_filter.mp hfil
    obtain ⟨k, hk, hdk⟩ := hdayk d hd
    have he' : e ∈ dayEvents store (dateOfKey k) := by rw [hdk]; exact he
    have hwfd := mem_dayEvents_wf store hwf k hk e he'
    by_contra hcon
    push_neg at hcon
    have hvg := htt g hgeq
    have hdle : g.toDate.key ≤ e.timestamp.toDate.key :=
      toNat_lt_toDate_key _ _ hvg hwfd.2 hcon
    have hd' : d ∈ scannedDays avail (from_time.map DT.toDate) (some g.toDate) := by
      rw [hscanned, hgeq] at hd
      exact hd
    have hdmem : d.key ≤ g.toDate.key := mem_scannedDays_to avail _ d g.toDate hd'
    have hdkey : d.key = e.timestamp.toDate.key := by rw [hwfd.1, hdk]
    have hkeyeq : d.key = g.toDate.key := by omega
    have hdbounds := dateOfKey_bounds k (hvkeys k hk).1
    rw [hdk] at hdbounds
    have hgbounds := toDate_bounds g hvg
    have hlast : scanned.getLast? = some d := by
      refine getLast_eq_of_max scanned d hpair hd ?_
      intro x hx
      have hx' : x ∈ scannedDays avail (from_time.map DT.toDate) (some g.toDate) := by
        rw [hscanned, hgeq] at hx
        exact hx
      have := mem_scannedDays_to avail _ x g.toDate hx'
      omega
    unfold geKeep at hkeep
    rw [hgeq] at hkeep
    simp [hlast, hcon] at hkeep

/-! ### insert_event behaviors -/

theorem truthy_of_lookup (d : JObj) (v : JVal) (h : lookupKey d "value" = some v) :
    (PyData.dict d).truthy = true := by
  unfold PyData.truthy
  cases d with
  | nil => unfold lookupKey at h; simp at h
  | cons a l => simp

theorem lookupKey_filter_value (d : JObj) :
    lookupKey (d.filter (fun p => !(p.1 = "value"))) "value" = none := by
  unfold lookupKey
  rw [show (List.find? (fun p => p.1 = "value")
      (d.filter (fun p => !(p.1 = "value")))) = none from ?_]
  · rfl
  · rw [List.find?_eq_none]
    intro p hp
    have := (List.mem_filter.mp hp).2
    simpa using this

/-- A successful insert of a dict with a value key: the record is written, the
caller's dict loses its value entry, and the flush decision and last-flush
update follow the flash-memory policy. -/
theorem insert_event_written (st : DaoState) (now msecs : Nat) (vt vn : String)
    (d : JObj) (v : JVal)
    (hms : msecs ≠ 0) (hvt : vt ≠ "") (hvn : vn ≠ "") (hro : st.readonly = false)
    (hlook : lookupKey d "value" = some v)
    (hcf : st.current_day.isSome → st.current_file.isSome) :
    ∃ k store2,
      insert_event st now msecs vt vn (.dict d) =
        ⟨.written (!st.flash_memory || decide (MAX_FLUSH_AGE ≤ now - st.last_flush)),
         .dict (d.filter (fun p => !(p.1 = "value"))),
         { readonly := false, flash_memory := st.flash_memory,
           current_file := some k,
           current_day := some (utcfromtimestampMs msecs).day,
           last_flush := if (!st.flash_memory ||
               decide (MAX_FLUSH_AGE ≤ now - st.last_flush)) = true
             then now else st.last_flush,
           store := store2 }⟩ := by
  have htruthy := truthy_of_lookup d v hlook
  unfold insert_event
  rw [if_neg (by simp [hms, hvt, hvn, htruthy]), if_neg (by simp [hro])]
  simp only [hlook]
  by_cases hsw : st.current_day = some (utcfromtimestampMs msecs).day
  · have hsome : st.current_file.isSome := hcf (by rw [hsw]; rfl)
    cases hcfe : st.current_file with
    | none => rw [hcfe] at hsome; simp at hsome
    | some k =>
      refine ⟨k, storeAppend st.store k
        (encodeLine (utcfromtimestampMs msecs) vt vn v
          (List.filter (fun p => !(p.1 = "value")) d) ++ "\n"), ?_⟩
      simp [hsw, hcfe, hro]
  · refine ⟨((utcfromtimestampMs msecs).year % 100, (utcfromtimestampMs msecs).month,
      (utcfromtimestampMs msecs).day),
      storeAppend (storeEnsure st.store ((utcfromtimestampMs msecs).year % 100,
        (utcfromtimestampMs msecs).month, (utcfromtimestampMs msecs).day))
        ((utcfromtimestampMs msecs).year % 100, (utcfromtimestampMs msecs).month,
          (utcfromtimestampMs msecs).day)
        (encodeLine (utcfromtimestampMs msecs) vt vn v
          (List.filter (fun p => !(p.1 = "value")) d) ++ "\n"), ?_⟩
    simp [hsw, hro]

/-- **C6** insert_event on a DAO opened read-only raises an IOError naming the
read-only condition and has no effect: the state — including every partition
file — and the caller's data argument are untouched. -/
theorem c6_readonly_insert_rejected (st : DaoState) (now msecs : Nat)
    (var_type var_name : String) (data : PyData)
    (hms : msecs ≠ 0) (hvt : var_type ≠ "") (hvn : var_name ≠ "")
    (hdata : data.truthy = true) (hro : st.readonly = true) :
    insert_event st now msecs var_type var_name data =
      ⟨.raised (.ioError "database opened in readonly"), data, st⟩ := by
  unfold insert_event
  rw [if_neg (by simp [hms, hvt, hvn, hdata]), if_pos (by simp [hro])]

/-- **C5** insert_event on a writable DAO with a data argument that is a
string failing JSON parsing, or whose resulting mapping lacks a value key,
returns normally with the event dropped: no exception reaches the caller,
the state — including every partition file — is untouched, and the caller's
data argument is unchanged. -/
theorem c5_malformed_data_dropped (st : DaoState) (now msecs : Nat)
    (var_type var_name : String) (data : PyData)
    (hms : msecs ≠ 0) (hvt : var_type ≠ "") (hvn : var_name ≠ "")
    (hdata : data.truthy = true) (hro : st.readonly = false)
    (hbad : match data with
      | .str s => jloads s = none ∨ ∃ d, jloads s = some d ∧ lookupKey d "value" = none
      | .dict d => lookupKey d "value" = none) :
    insert_event st now msecs var_type var_name data = ⟨.dropped, data, st⟩ := by
  unfold insert_event
  rw [if_neg (by simp [hms, hvt, hvn, hdata]), if_neg (by simp [hro])]
  cases data with
  | dict d =>
    simp only at hbad
    simp [hbad]
  | str s =>
    simp only at hbad
    rcases hbad with hnone | ⟨d, hsome, hlook⟩
    · simp [hnone]
    · simp [hsome, hlook]

/-- **C10** insert_event with a pre-parsed dict containing a value key mutates
the caller's dictionary in place: after the call returns (normally, having
written the record), the value key has been deleted from the mapping object
the caller passed in. -/
theorem c10_caller_dict_mutated (st : DaoState) (now msecs : Nat) (vt vn : String)
    (d : JObj) (v : JVal)
    (hms : msecs ≠ 0) (hvt : vt ≠ "") (hvn : vn ≠ "") (hro : st.readonly = false)
    (hlook : lookupKey d "value" = some v)
    (hcf : st.current_day.isSome → st.current_file.isSome) :
    (insert_event st now msecs vt vn (.dict d)).dataAfter =
      .dict (d.filter (fun p => !(p.1 = "value"))) ∧
    lookupKey (d.filter (fun p => !(p.1 = "value"))) "value" = none ∧
    (∃ fl, (insert_event st now msecs vt vn (.dict d)).outcome = .written fl) := by
  obtain ⟨k, store2, heq⟩ := insert_event_written st now msecs vt vn d v
    hms hvt hvn hro hlook hcf
  rw [heq]
  exact ⟨rfl, lookupKey_filter_value d, _, rfl⟩

/-- **C8 (amended)** The durability policy of insert_event and flush: in
default mode every write is followed by a physical flush; with flash-memory
mode enabled an append flushes exactly when at least MAX_FLUSH_AGE (2 hours)
has elapsed since the throttle marker _last_flush, which is set only by
flushes performed inside insert_event — so two appends less than the interval
apart produce only one physical flush; the explicit flush() always flushes
immediately when a file is open (a logged no-op otherwise) but does not reset
the throttle marker. -/
theorem c8_flush_policy (st : DaoState) (now msecs : Nat) (vt vn : String)
    (d : JObj) (v : JVal)
    (hms : msecs ≠ 0) (hvt : vt ≠ "") (hvn : vn ≠ "") (hro : st.readonly = false)
    (hlook : lookupKey d "value" = some v)
    (hcf : st.current_day.isSome → st.current_file.isSome) :
    (st.flash_memory = false →
      (insert_event st now msecs vt vn (.dict d)).outcome = .written true) ∧
    (st.flash_memory = true → MAX_FLUSH_AGE ≤ now - st.last_flush →
      (insert_event st now msecs vt vn (.dict d)).outcome = .written true ∧
      (insert_event st now msecs vt vn (.dict d)).state.last_flush = now) ∧
    (st.flash_memory = true → now - st.last_flush < MAX_FLUSH_AGE →
      (insert_event st now msecs vt vn (.dict d)).outcome = .written false ∧
      (insert_event st now msecs vt vn (.dict d)).state.last_flush = st.last_flush) ∧
    (∀ s : DaoState, dao_flush s = (s.current_file.isSome, s)) ∧
    (∀ t2 msecs2 vt2 vn2 (d2 : JObj) (v2 : JVal), st.flash_memory = true →
      MAX_FLUSH_AGE ≤ now - st.last_flush → t2 - now < MAX_FLUSH_AGE →
      msecs2 ≠ 0 → vt2 ≠ "" → vn2 ≠ "" → lookupKey d2 "value" = some v2 →
      (insert_event (insert_event st now msecs vt vn (.dict d)).state
        t2 msecs2 vt2 vn2 (.dict d2)).outcome = .written false) := by
  obtain ⟨k, store2, heq⟩ := insert_event_written st now msecs vt vn d v
    hms hvt hvn hro hlook hcf
  refine ⟨?_, ?_, ?_, fun s => rfl, ?_⟩
  · intro hfl
    rw [heq, hfl]
    rfl
  · intro hfl hage
    rw [heq, hfl]
    simp [hage]
  · intro hfl hage
    have hnage : ¬ MAX_FLUSH_AGE ≤ now - st.last_flush := by omega
    rw [heq, hfl]
    simp [hnage]
  · intro t2 msecs2 vt2 vn2 d2 v2 hfl hage ht2 hms2 hvt2 hvn2 hlook2
    have hroS : (insert_event st now msecs vt vn (.dict d)).state.readonly = false := by
      rw [heq]
    have hcfS : (insert_event st now msecs vt vn (.dict d)).state.current_day.isSome →
        (insert_event st now msecs vt vn (.dict d)).state.current_file.isSome := by
      rw [heq]
      intro _
      rfl
    obtain ⟨k2, store3, heq2⟩ := insert_event_written
      ((insert_event st now msecs vt vn (.dict d)).state) t2 msecs2 vt2 vn2 d2 v2
      hms2 hvt2 hvn2 hroS hlook2 hcfS
    have hlastS : (insert_event st now msecs vt vn (.dict d)).state.last_flush = now := by
      rw [heq]
      simp [hfl, hage]
    have hflashS :
        (insert_event st now msecs vt vn (.dict d)).state.flash_memory = true := by
      rw [heq]
      exact hfl
    rw [heq2]
    have hnage : ¬ MAX_FLUSH_AGE ≤ t2 - now := by omega
    simp [hflashS, hlastS, hnage]

/-- **C9 (amended)** get_available_days on a store of distinct well-formed
partition filenames with years in 2000-2068: without a filter it yields
exactly the days having a partition file, in ascending order; a (year, month)
filter keeps exactly that month's days, a 4-digit year above 2000 reduced to
its 2-digit form before the comparison; a truthy non-tuple filter raises a
ValueError (when the generator is consumed); a truthy tuple of a wrong arity
fails at the per-filename unpacking, so it raises exactly when the listing is
non-empty and yields the empty sequence without error on an empty listing;
and a falsy filter — the empty tuple () in particular — is treated as no
filter at all rather than raising. -/
theorem c9_available_days_listing (store : Store)
    (hn : (store.map (fun p => p.1)).Nodup)
    (hv : ∀ k ∈ store.map (fun p => p.1), ValidKey k ∧ k.1 ≤ 68) :
    (∃ l, get_available_days store .noarg = .ok l ∧
       l.Pairwise (fun a b => a.key < b.key) ∧
       (∀ dd, dd ∈ l ↔ ∃ k ∈ store.map (fun p => p.1), dateOfKey k = dd)) ∧
    (∀ y mo : Nat, ∃ l, get_available_days store (.tup [y, mo]) = .ok l ∧
       l.Pairwise (fun a b => a.key < b.key) ∧
       (∀ dd, dd ∈ l ↔ ∃ k ∈ store.map (fun p => p.1),
         k.1 = (if y > 2000 then y - 2000 else y) ∧ k.2.1 = mo ∧ dateOfKey k = dd)) ∧
    (get_available_days store (.nonTuple true) =
      .error (.valueError "month must be a tuple")) ∧
    (∀ xs : List Nat, xs ≠ [] → xs.length ≠ 2 →
       (store = [] → get_available_days store (.tup xs) = .ok []) ∧
       (store ≠ [] →
         get_available_days store (.tup xs) = .error (.valueError "unpack"))) ∧
    (get_available_days store (.tup []) = get_available_days store .noarg ∧
     get_available_days store (.nonTuple false) = get_available_days store .noarg) := by
  refine ⟨?_, ?_, rfl, ?_, rfl, rfl⟩
  · refine ⟨(sortedKeys store).map dateOfKey,
      get_available_days_noarg store (fun k hk => (hv k hk).1),
      availDates_pairwise store hn hv, ?_⟩
    intro dd
    constructor
    · intro hdd
      obtain ⟨k, hk, hdk⟩ := List.mem_map.mp hdd
      exact ⟨k, (mem_sortedKeys store k).mp hk, hdk⟩
    · intro ⟨k, hk, hdk⟩
      exact List.mem_map.mpr ⟨k, (mem_sortedKeys store k).mpr hk, hdk⟩
  · intro y mo
    unfold get_available_days
    have hall : (((sortedKeys store).filter (fun k =>
        k.1 = (if y > 2000 then y - 2000 else y) && k.2.1 = mo)).all
          (fun k => decide (ValidKey k))) = true := by
      rw [List.all_eq_true]
      intro k hk
      simp only [decide_eq_true_eq]
      exact (hv k ((mem_sortedKeys store k).mp (List.mem_filter.mp hk).1)).1
    simp only [MonthArg.truthy, MonthArg.isTuple, List.isEmpty_cons, Bool.not_false,
      Bool.not_true, Bool.and_false, Bool.false_eq_true, if_false, if_true, hall]
    refine ⟨_, rfl, ?_, ?_⟩
    · rw [List.pairwise_map]
      exact (keys_pairwise_dateOfKey store hn hv).filter _
    · intro dd
      constructor
      · intro hdd
        obtain ⟨k, hk, hdk⟩ := List.mem_map.mp hdd
        obtain ⟨hks, hpred⟩ := List.mem_filter.mp hk
        simp only [Bool.and_eq_true, decide_eq_true_eq] at hpred
        exact ⟨k, (mem_sortedKeys store k).mp hks, hpred.1, hpred.2, hdk⟩
      · intro ⟨k, hk, hk1, hk2, hdk⟩
        refine List.mem_map.mpr ⟨k, List.mem_filter.mpr
          ⟨(mem_sortedKeys store k).mpr hk, ?_⟩, hdk⟩
        simp [hk1, hk2]
  · intro xs hne hlen
    constructor
    · intro hst
      subst hst
      cases xs with
      | nil => exact absurd rfl hne
      | cons a t =>
        cases t with
        | nil => rfl
        | cons b t2 =>
          cases t2 with
          | nil => simp at hlen
          | cons c t3 => rfl
    · intro hst
      have hke : (sortedKeys store).isEmpty = false := by
        cases hs : sortedKeys store with
        | nil => exact absurd ((sortedKeys_eq_nil_iff store).mp hs) hst
        | cons p t => rfl
      cases xs with
      | nil => exact absurd rfl hne
      | cons a t =>
        cases t with
        | nil =>
          show (if (sortedKeys store).isEmpty then (Except.ok ([] : List PDate))
            else Except.error (PyErr.valueError "unpack")) =
            Except.error (PyErr.valueError "unpack")
          rw [hke]
          rfl
        | cons b t2 =>
          cases t2 with
          | nil => simp at hlen
          | cons c t3 =>
            show (if (sortedKeys store).isEmpty then (Except.ok ([] : List PDate))
              else Except.error (PyErr.valueError "unpack")) =
              Except.error (PyErr.valueError "unpack")
            rw [hke]
            rfl

/-! ### Constructor behaviors -/

theorem fsExists_of_isDir (fs : PathFS) (p : String) (h : fsIsDir fs p = true) :
    fsExists fs p = true := by
  unfold fsIsDir at h
  unfold fsExists
  cases hf : fs.find? (fun e => e.1 = p) with
  | none => rw [hf] at h; simp at h
  | some e => simp

theorem fsExists_mkdir_self (fs : PathFS) (p : String) :
    fsExists (fsMkdir fs p) p = true := by
  unfold fsExists fsMkdir
  rw [List.find?_append]
  cases hf : fs.find? (fun e => e.1 = p) with
  | none => simp
  | some e => simp

/-- **C7 (amended)** Construction in read-only mode: a missing configured
database home is a not-found IOError, a home that exists but is not a
directory is an IOError, but when the home is a directory construction
succeeds even read-only and the channel storage root <home>/<channel> is
created (not required to pre-exist) — the not-found check guards the
configured home only, never the channel root. -/
theorem c7_constructor_readonly (fs : PathFS) (ch : String) (cfg : Cfg) :
    (fsExists fs cfg.evts_db_home_dir = false →
      daoInit fs ch (some cfg) true =
        .error (.ioError ("path not found : " ++ cfg.evts_db_home_dir))) ∧
    (fsIsDir fs cfg.evts_db_home_dir = false → fsExists fs cfg.evts_db_home_dir = true →
      ∀ ro, daoInit fs ch (some cfg) ro =
        .error (.ioError ("path is not a directory : " ++ cfg.evts_db_home_dir))) ∧
    (fsIsDir fs cfg.evts_db_home_dir = true →
      ∀ ro, ∃ fs2, daoInit fs ch (some cfg) ro =
        .ok (fs2, ⟨cfg.evts_db_home_dir ++ "/" ++ ch, ro, cfg.flash_memory⟩) ∧
        fsExists fs2 (cfg.evts_db_home_dir ++ "/" ++ ch) = true) := by
  refine ⟨?_, ?_, ?_⟩
  · intro hex
    unfold daoInit
    simp [hex]
  · intro hdir hex ro
    unfold daoInit
    simp [hex, hdir]
  · intro hdir ro
    have hex := fsExists_of_isDir fs _ hdir
    unfold daoInit
    simp only [hex, hdir, Bool.not_true, Bool.false_eq_true, if_false]
    by_cases hroot : fsExists fs (cfg.evts_db_home_dir ++ "/" ++ ch) = true
    · exact ⟨fs, by simp [hroot], hroot⟩
    · refine ⟨fsMkdir fs (cfg.evts_db_home_dir ++ "/" ++ ch), ?_,
        fsExists_mkdir_self fs _⟩
      simp only [Bool.not_eq_true] at hroot
      simp [hroot]

/-! ### The claims settled by direct evaluation, the counterexamples, and
the witnesses -/

/-- **C1** The day-partitioning claim is right and the code is wrong: the
file-switch test compares only timestamp.day, the day of the month, against
the current-day marker, not the full calendar day.  Evaluating the code on
two inserts at 2024-01-05T12:00:00Z and 2024-02-05T12:00:00Z (different UTC
calendar days, same day of the month): no file for 2024-02-05 is ever
created, and the February event line is appended to the 240105 partition
file, which ends up holding two records of different calendar days —
contradicting the claimed invariant (and the implementation's own docstring,
"a distinct file for each day"). -/
theorem c1_day_of_month_bug_eval :
    (utcfromtimestampMs 1704456000000).toDate = ⟨2024, 1, 5⟩ ∧
    (utcfromtimestampMs 1707134400000).toDate = ⟨2024, 2, 5⟩ ∧
    (let r1 := insert_event (initState false false []) 1000 1704456000000
       "temperature" "t1" (.dict [("value", .jint 1)])
     let r2 := insert_event r1.state 2000 1707134400000
       "temperature" "t1" (.dict [("value", .jint 2)])
     r1.outcome = .written true ∧ r2.outcome = .written true ∧
     storeRead r2.state.store (24, 2, 5) = none ∧
     (fileLines ((storeRead r2.state.store (24, 1, 5)).getD "")).length = 2) := by
  decide

/-- **C2 (amended)** Round trip of the record codec: for an event with a
valid timestamp, non-empty var_type and var_name free of tabs and newlines, a
value whose string representation is free of tabs and newlines, and a
metadata mapping without a value key, decoding the encoded line reproduces
var_type, var_name, the value's string representation and the metadata
exactly (the timestamp comes back with its century re-derived by the %y
rule). -/
theorem c2_record_roundtrip (ts : DT) (vt vn : String) (v : JVal) (m : JObj)
    (hts : DTValid ts) (hvt : vt ≠ "") (hvn : vn ≠ "")
    (hvtf : noTabNl vt) (hvnf : noTabNl vn) (hvf : noTabNl (pyStr v))
    (hm : "value" ∉ m.map Prod.fst) :
    decodeLineStep none none (encodeLine ts vt vn v m ++ "\n") =
      .ok ⟨remapYear ts, vt, vn, pyStr v, m⟩ :=
  decode_encodeLine ts vt vn v m hts hvtf hvnf hvf hm

/-- **C2 counterexample** The claim as stated allows an arbitrary value; but
a value whose string representation contains a tab (here the string "a\tb")
makes the encoded record split into six fields, so decoding rejects the line
as corrupted instead of reproducing the event. -/
theorem c2_tab_in_value_cex :
    decodeLineStep none none
      (encodeLine ⟨2024, 1, 5, 12, 0, 0, 0⟩ "temperature" "t1" (.jstr "a\tb") [] ++ "\n") =
      .corrupt := by
  decide

/-- **C3 (amended)** Corruption tolerance of the single-day scan: as long as
no line decodes to a record whose JSON metadata itself contains a value key,
the scan yields exactly the decodable events in file order, logs each
corrupted line's record number, skips it, and raises no exception (a missing
partition file gives the empty result). -/
theorem c3_corruption_tolerance (store : Store) (y m d : Nat)
    (h : ∀ l ∈ linesOfDay store y m d, decodeLineStep none none l ≠ .collide) :
    get_events_for_day store y m d none none =
      ⟨(linesOfDay store y m d).filterMap (fun l => stepEvent (decodeLineStep none none l)),
       (List.enumFrom 1 (linesOfDay store y m d)).filterMap
         (fun p => if decodeLineStep none none p.2 = .corrupt then some p.1 else none),
       false⟩ :=
  get_events_for_day_characterization store y m d h

/-- **C3 counterexample** A line that splits into five fields, has a valid
timestamp and valid JSON is not "corrupted" in the claim's sense — but when
its JSON metadata contains a "value" key, the event reconstruction call
passes the value keyword twice, so Python raises an uncaught TypeError: the
scan aborts (flag true) after the first event instead of yielding both valid
events with no exception. -/
theorem c3_value_collision_aborts :
    get_events_for_day [((24, 1, 5),
      "240105-120000.000000\tT\tN\t5\t\x7b\x7d\n240105-120001.000000\tT\tN\t5\t\x7b\"value\": 1\x7d\n240105-120002.000000\tT\tN\t6\t\x7b\x7d\n")]
      2024 1 5 none none =
      ⟨[⟨⟨2024, 1, 5, 12, 0, 0, 0⟩, "T", "N", "5", []⟩], [], true⟩ := by
  decide

/-- **C7 counterexample** With the configured home "/var/db" existing as a
directory but the storage root "/var/db/sensor" absent, a read-only open
succeeds — and even creates the channel directory — instead of failing with
the not-found error the claim requires for a missing storage root. -/
theorem c7_readonly_missing_root_cex :
    daoInit [("/var/db", true)] "sensor" (some ⟨"/var/db", false⟩) true =
      .ok ([("/var/db", true), ("/var/db/sensor", true)],
        ⟨"/var/db/sensor", true, false⟩) := by
  rfl

/-- **C8 counterexample** In flash-memory mode: an append at wall-clock 10000
flushes (setting the throttle marker), an explicit flush() performed at
wall-clock 17000 is also a physical flush (a file is open), and an append at
17300 — only 300 seconds after that last physical flush, far less than the
2-hour interval — flushes again physically: so "a physical flush occurs on
append only if at least 2 hours have elapsed since the last flush" is false
as stated; the explicit flush does not reset the throttle marker. -/
theorem c8_throttle_marker_cex :
    (let r1 := insert_event (initState false true []) 10000 1704456000000
       "T" "N" (.dict [("value", .jint 1)])
     let f2 := dao_flush r1.state
     let r3 := insert_event f2.2 17300 1704456001000 "T" "N" (.dict [("value", .jint 2)])
     r1.outcome = .written true ∧ f2.1 = true ∧ r3.outcome = .written true ∧
     (17300 : Nat) - 17000 < MAX_FLUSH_AGE) := by
  decide

/-- **C9 counterexample** An empty tuple is a month filter that is provided
but is not a 2-element pair, yet the listing raises no error at all: the
falsy filter is silently treated as absent and every day is yielded. -/
theorem c9_empty_tuple_filter_cex :
    get_available_days [((24, 1, 5), "x")] (.tup []) = .ok [⟨2024, 1, 5⟩] := by
  rfl

/-! ### Witnesses -/

theorem c2_record_roundtrip_witness :
    decodeLineStep none none
      (encodeLine ⟨2024, 1, 5, 12, 0, 0, 123456⟩ "temperature" "t1" (.jint 21)
        [("unit", .jstr "degC")] ++ "\n") =
      .ok ⟨⟨2024, 1, 5, 12, 0, 0, 123456⟩, "temperature", "t1", "21",
        [("unit", .jstr "degC")]⟩ :=
  (c2_record_roundtrip ⟨2024, 1, 5, 12, 0, 0, 123456⟩ "temperature" "t1" (.jint 21)
    [("unit", .jstr "degC")] (by decide) (by decide) (by decide) (by decide)
    (by decide) (by decide) (by decide)).trans (by decide)

theorem c3_corruption_tolerance_witness :
    get_events_for_day [((24, 1, 5),
      "240105-120000.000000\tT\tN\t5\t\x7b\x7d\ngarbage line\n240105-120002.000000\tT\tN\t6\t\x7b\x7d\n")]
      2024 1 5 none none =
      ⟨[⟨⟨2024, 1, 5, 12, 0, 0, 0⟩, "T", "N", "5", []⟩,
        ⟨⟨2024, 1, 5, 12, 0, 2, 0⟩, "T", "N", "6", []⟩], [2], false⟩ :=
  (c3_corruption_tolerance [((24, 1, 5),
    "240105-120000.000000\tT\tN\t5\t\x7b\x7d\ngarbage line\n240105-120002.000000\tT\tN\t6\t\x7b\x7d\n")]
    2024 1 5 (by decide)).trans (by decide)

theorem c4_get_events_boundary_trimming_witness :
    WFStore [((24, 1, 5),
        "240105-235959.000000\tT\tN\t5\t\x7b\x7d\n"),
      ((24, 1, 6), "240106-000001.000000\tT\tN\t6\t\x7b\x7d\n")] ∧
    (∃ evs, get_events [((24, 1, 5), "240105-235959.000000\tT\tN\t5\t\x7b\x7d\n"),
        ((24, 1, 6), "240106-000001.000000\tT\tN\t6\t\x7b\x7d\n")]
      (some ⟨2024, 1, 5, 0, 0, 0, 0⟩) (some ⟨2024, 1, 6, 0, 0, 1, 0⟩) none none =
        Except.ok (evs, false)) := by
  constructor
  · decide
  · obtain ⟨evs, h1, _, _, _⟩ := c4_get_events_boundary_trimming
      [((24, 1, 5), "240105-235959.000000\tT\tN\t5\t\x7b\x7d\n"),
       ((24, 1, 6), "240106-000001.000000\tT\tN\t6\t\x7b\x7d\n")]
      (some ⟨2024, 1, 5, 0, 0, 0, 0⟩) (some ⟨2024, 1, 6, 0, 0, 1, 0⟩)
      (by decide)
      (by intro f hf; cases hf; decide)
      (by intro g hg; cases hg; decide)
    exact ⟨evs, h1⟩

theorem c5_malformed_data_dropped_witness :
    insert_event (initState false false []) 5 1704456000000 "temperature" "t1"
      (.str "not json at all") =
      ⟨.dropped, .str "not json at all", initState false false []⟩ :=
  c5_malformed_data_dropped (initState false false []) 5 1704456000000
    "temperature" "t1" (.str "not json at all")
    (by decide) (by decide) (by decide) (by decide) (by decide) (by decide)

theorem c6_readonly_insert_rejected_witness :
    insert_event (initState true false [((24, 1, 5), "x")]) 5 1704456000000
      "temperature" "t1" (.dict [("value", .jint 1)]) =
      ⟨.raised (.ioError "database opened in readonly"),
       .dict [("value", .jint 1)], initState true false [((24, 1, 5), "x")]⟩ :=
  c6_readonly_insert_rejected (initState true false [((24, 1, 5), "x")]) 5
    1704456000000 "temperature" "t1" (.dict [("value", .jint 1)])
    (by decide) (by decide) (by decide) (by decide) (by decide)

theorem c7_constructor_readonly_witness :
    daoInit [] "sensor" (some ⟨"/var/db", false⟩) true =
      .error (.ioError ("path not found : " ++ "/var/db")) :=
  (c7_constructor_readonly [] "sensor" ⟨"/var/db", false⟩).1 (by decide)

theorem c8_flush_policy_witness :
    (insert_event (initState false false []) 5 1704456000000 "T" "N"
      (.dict [("value", .jint 1)])).outcome = .written true :=
  (c8_flush_policy (initState false false []) 5 1704456000000 "T" "N"
    [("value", .jint 1)] (.jint 1)
    (by decide) (by decide) (by decide) (by decide) (by decide) (by decide)).1 rfl

theorem c9_available_days_listing_witness :
    ∃ l, get_available_days [((24, 1, 5), "x"), ((24, 1, 6), "y")] .noarg =
      .ok l ∧ l.Pairwise (fun a b => a.key < b.key) := by
  obtain ⟨⟨l, h1, h2, _⟩, _, _, _, _⟩ := c9_available_days_listing
    [((24, 1, 5), "x"), ((24, 1, 6), "y")] (by decide) (by decide)
  exact ⟨l, h1, h2⟩

theorem c10_caller_dict_mutated_witness :
    (insert_event (initState false false []) 5 1704456000000 "temperature" "t1"
      (.dict [("value", .jint 7), ("unit", .jstr "degC")])).dataAfter =
      .dict [("unit", .jstr "degC")] := by
  have h := c10_caller_dict_mutated (initState false false []) 5 1704456000000
    "temperature" "t1" [("value", .jint 7), ("unit", .jstr "degC")] (.jint 7)
    (by decide) (by decide) (by decide) (by decide) (by decide) (by decide)
  rw [h.1]
  decide

end EvtDB
